import Mathlib

/-!
# Verification of the security-middleware core of `new-openclaw`

Shallow embedding of the request-scoped guard middleware of the repository
(`internal/middleware/signature.go`, `internal/middleware/jwt.go` rate limiters,
the IP admission filter and the audit-log redaction), together with proofs of
the behavioural properties stated in the specification.

Modelling conventions:
* Go `map[string]V` is modelled as a total function `String → Option V`
  (`GoMap V`); `map` insertion and deletion are pointwise function updates.
* Time (`time.Time`, `time.Duration`) is modelled by `Int` values counting
  Unix seconds; `now.Sub(t) > d` becomes `d < now - t`.
* External library calls (Go stdlib crypto, `encoding/json`, `net`) are not
  code of this repository; they are modelled abstractly (hash functions as
  parameters, JSON codecs as parameters, `net.ParseIP` as an explicit
  dotted-quad IPv4 parser).
-/

namespace NewOpenClaw

/-- Model of a Go `map[string]V`: a total function into `Option`. -/
def GoMap (V : Type) : Type := String → Option V

/-- `m[k] = v` map assignment. -/
def GoMap.insert {V : Type} (m : GoMap V) (k : String) (v : V) : GoMap V :=
  fun k' => if k' = k then some v else m k'

/-- The empty Go map. -/
def GoMap.empty {V : Type} : GoMap V := fun _ => none

@[simp]
theorem GoMap.insert_self {V : Type} (m : GoMap V) (k : String) (v : V) :
    GoMap.insert m k v k = some v := by
  simp [GoMap.insert]

@[simp]
theorem GoMap.insert_other {V : Type} (m : GoMap V) (k k' : String) (v : V) (h : k' ≠ k) :
    GoMap.insert m k v k' = m k' := by
  simp [GoMap.insert, h]

@[simp]
theorem GoMap.empty_apply {V : Type} (k : String) : (GoMap.empty : GoMap V) k = none := rfl

/-- Model of Go `strings.Join(parts, sep)`. -/
def goJoin (sep : String) : List String → String
  | [] => ""
  | [x] => x
  | x :: y :: xs => x ++ sep ++ goJoin sep (y :: xs)

theorem goJoin_cons_cons (sep x y : String) (xs : List String) :
    goJoin sep (x :: y :: xs) = x ++ sep ++ goJoin sep (y :: xs) := rfl

theorem string_data_injective {a b : String} (h : a.data = b.data) : a = b := by
  cases a; cases b; exact congrArg String.mk h

theorem string_append_cancel_left {a b c : String} (h : a ++ b = a ++ c) : b = c := by
  apply string_data_injective
  have h' := congrArg String.data h
  simp only [String.data_append] at h'
  exact List.append_cancel_left h'

theorem string_append_cancel_right {a b c : String} (h : a ++ c = b ++ c) : a = b := by
  apply string_data_injective
  have h' := congrArg String.data h
  simp only [String.data_append] at h'
  exact List.append_cancel_right h'

/-- Joining lists which agree except at one (aligned) component is injective
in that component. -/
theorem goJoin_inj_at (sep : String) :
    ∀ (p : List String) (x y : String) (q : List String),
      goJoin sep (p ++ x :: q) = goJoin sep (p ++ y :: q) → x = y := by
  intro p
  induction p with
  | nil =>
    intro x y q h
    cases q with
    | nil => simpa [goJoin] using h
    | cons c q' =>
      simp only [List.nil_append, goJoin_cons_cons] at h
      exact string_append_cancel_right (string_append_cancel_right h)
  | cons a p' ih =>
    intro x y q h
    cases p' with
    | nil =>
      simp only [List.cons_append, List.nil_append, goJoin_cons_cons] at h
      have h' := string_append_cancel_left h
      apply ih x y q
      simpa using h'
    | cons b p'' =>
      simp only [List.cons_append, goJoin_cons_cons] at h
      have h' := string_append_cancel_left h
      exact ih x y q h'

theorem goJoin_append_singleton (sep : String) :
    ∀ (l : List String), l ≠ [] → ∀ x, goJoin sep (l ++ [x]) = goJoin sep l ++ sep ++ x := by
  intro l
  induction l with
  | nil => intro h; exact absurd rfl h
  | cons a l' ih =>
    intro _ x
    cases l' with
    | nil => simp [goJoin]
    | cons b l'' =>
      have h2 := ih (by simp) x
      simp only [List.cons_append, goJoin_cons_cons] at h2 ⊢
      rw [h2]
      simp [String.append_assoc]

theorem goJoin_ne_of_extra (l : List String) (hl : l ≠ []) (x : String) :
    goJoin "&" (l ++ [x]) ≠ goJoin "&" l := by
  intro h
  rw [goJoin_append_singleton "&" l hl x] at h
  have hlen := congrArg String.length h
  have hamp : ("&" : String).length = 1 := rfl
  simp only [String.length_append, hamp] at hlen
  omega

/-! ## Decimal formatting and parsing (Go `strconv.FormatInt` / `strconv.ParseInt`, base 10) -/

/-- The decimal digit character for `d < 10`. -/
def decDigitChar (d : Nat) : Char := Char.ofNat (48 + d)

/-- Little-endian digit-character list, with explicit fuel (structural
recursion so that concrete values reduce in the kernel). -/
def natToDigitsRevFuel : Nat → Nat → List Char
  | _, 0 => []
  | 0, _ + 1 => []
  | fuel + 1, n + 1 => decDigitChar ((n + 1) % 10) :: natToDigitsRevFuel fuel ((n + 1) / 10)

/-- Little-endian list of decimal digit characters of `n` (empty for `0`). -/
def natToDigitsRev (n : Nat) : List Char := natToDigitsRevFuel n n

/-- Decimal representation of a natural number. -/
def natToDecimal (n : Nat) : String :=
  if n = 0 then "0" else String.mk (natToDigitsRev n).reverse

/-- Model of Go `strconv.FormatInt(t, 10)`. -/
def goFormatInt (t : Int) : String :=
  if t < 0 then "-" ++ natToDecimal t.natAbs else natToDecimal t.natAbs

/-- Numeric value of a decimal digit character. -/
def charDigitVal (c : Char) : Nat := c.toNat - 48

/-- Value of a big-endian string of decimal digit characters. -/
def decDigitsToNat (l : List Char) : Nat := l.foldl (fun a c => a * 10 + charDigitVal c) 0

/-- Model of Go `strconv.ParseInt(s, 10, 64)` (returning `none` on any error,
including out-of-`int64`-range values): optional sign, at least one digit,
all characters digits. -/
def parseGoInt64 (s : String) : Option Int :=
  match s.data with
  | [] => none
  | c :: rest =>
    let ds := if c = '-' ∨ c = '+' then rest else c :: rest
    if ds = [] then none
    else if ds.all Char.isDigit then
      let v : Int := (decDigitsToNat ds : Int)
      let i : Int := if c = '-' then -v else v
      if -(2 ^ 63) ≤ i ∧ i ≤ 2 ^ 63 - 1 then some i else none
    else none

theorem decDigitChar_isDigit (d : Nat) (h : d < 10) : (decDigitChar d).isDigit = true := by
  interval_cases d <;> decide

theorem charDigitVal_decDigitChar (d : Nat) (h : d < 10) : charDigitVal (decDigitChar d) = d := by
  interval_cases d <;> decide

theorem isDigit_ne_sign {c : Char} (h : c.isDigit = true) : ¬(c = '-' ∨ c = '+') := by
  rintro (rfl | rfl) <;> exact absurd h (by decide)

theorem natToDigitsRevFuel_all_digit :
    ∀ (fuel n : Nat), n ≤ fuel → (natToDigitsRevFuel fuel n).all Char.isDigit = true := by
  intro fuel
  induction fuel with
  | zero =>
    intro n hn
    obtain rfl : n = 0 := by omega
    rfl
  | succ f ih =>
    intro n hn
    match n with
    | 0 => rfl
    | Nat.succ m =>
      rw [natToDigitsRevFuel]
      simp only [List.all_cons, Bool.and_eq_true]
      refine ⟨decDigitChar_isDigit _ (Nat.mod_lt _ (by omega)), ?_⟩
      exact ih ((m + 1) / 10) (by
        have hd : (m + 1) / 10 < m + 1 := Nat.div_lt_self (by omega) (by omega)
        omega)

theorem natToDigitsRev_all_digit (n : Nat) : (natToDigitsRev n).all Char.isDigit = true :=
  natToDigitsRevFuel_all_digit n n (le_refl n)

theorem natToDigitsRevFuel_foldr :
    ∀ (fuel n : Nat), n ≤ fuel →
      (natToDigitsRevFuel fuel n).foldr (fun c a => a * 10 + charDigitVal c) 0 = n := by
  intro fuel
  induction fuel with
  | zero =>
    intro n hn
    obtain rfl : n = 0 := by omega
    rfl
  | succ f ih =>
    intro n hn
    match n with
    | 0 => rfl
    | Nat.succ m =>
      rw [natToDigitsRevFuel]
      rw [List.foldr_cons]
      rw [ih ((m + 1) / 10) (by
        have hd : (m + 1) / 10 < m + 1 := Nat.div_lt_self (by omega) (by omega)
        omega)]
      rw [charDigitVal_decDigitChar _ (Nat.mod_lt _ (by omega))]
      omega

theorem decDigitsToNat_reverse (n : Nat) : decDigitsToNat (natToDigitsRev n).reverse = n := by
  unfold decDigitsToNat
  rw [List.foldl_reverse]
  exact natToDigitsRevFuel_foldr n n (le_refl n)

theorem natToDigitsRev_ne_nil (n : Nat) (h : 0 < n) : natToDigitsRev n ≠ [] := by
  match n with
  | Nat.succ m => rw [natToDigitsRev, natToDigitsRevFuel]; simp

theorem parseGoInt64_natToDecimal (n : Nat) (h : (n : Int) ≤ 2 ^ 63 - 1) :
    parseGoInt64 (natToDecimal n) = some (n : Int) := by
  by_cases h0 : n = 0
  · subst h0; decide
  · unfold natToDecimal
    rw [if_neg h0]
    have hne : (natToDigitsRev n).reverse ≠ [] := by
      simpa using natToDigitsRev_ne_nil n (Nat.pos_of_ne_zero h0)
    obtain ⟨c, rest, hcr⟩ := List.exists_cons_of_ne_nil hne
    have halldig : (c :: rest).all Char.isDigit = true := by
      rw [← hcr]
      rw [List.all_reverse]
      exact natToDigitsRev_all_digit n
    have hcdig : c.isDigit = true := by
      simp only [List.all_cons, Bool.and_eq_true] at halldig
      exact halldig.1
    have hval : decDigitsToNat (c :: rest) = n := by
      rw [← hcr]; exact decDigitsToNat_reverse n
    show parseGoInt64 (String.mk (natToDigitsRev n).reverse) = some (n : Int)
    unfold parseGoInt64
    simp only [hcr]
    rw [if_neg (isDigit_ne_sign hcdig)]
    rw [if_neg (by simp : ¬(c :: rest = []))]
    rw [if_pos halldig]
    rw [hval]
    rw [if_neg (fun hc => isDigit_ne_sign hcdig (Or.inl hc))]
    rw [if_pos (by constructor <;> omega)]

theorem parseGoInt64_goFormatInt (t : Int) (h0 : 0 ≤ t) (h1 : t ≤ 2 ^ 63 - 1) :
    parseGoInt64 (goFormatInt t) = some t := by
  unfold goFormatInt
  rw [if_neg (not_lt.mpr h0)]
  have habs : (t.natAbs : Int) = t := Int.natAbs_of_nonneg h0
  rw [parseGoInt64_natToDecimal t.natAbs (by rw [habs]; exact h1)]
  rw [habs]

/-! ## Rate limiting (`internal/middleware/jwt.go`)

`RateLimitConfig.Window` and all times are Unix seconds (`Int`);
`MaxRequests` is a Go `int`, modelled as `Int`. The `KeyFunc` and
`LimitHandler` fields are request plumbing and are not part of the
limiter algorithms, so they are omitted from the embedded config. -/

structure RateLimitConfig where
  Window : Int
  MaxRequests : Int

/-- `rateLimitEntry`: per-key count and window start. -/
structure rateLimitEntry where
  count : Int
  startTime : Int
deriving DecidableEq

/-- `RateLimiter.Allow` (jwt.go lines 286-307). The mutex is dropped: the
model is the sequential body of the critical section, returning the decision
and the updated entry map. -/
def RateLimiter.Allow (cfg : RateLimitConfig) (now : Int) (m : GoMap rateLimitEntry)
    (key : String) : Bool × GoMap rateLimitEntry :=
  match m key with
  | none => (true, m.insert key ⟨1, now⟩)
  | some entry =>
    if cfg.Window < now - entry.startTime then (true, m.insert key ⟨1, now⟩)
    else if cfg.MaxRequests ≤ entry.count then (false, m)
    else (true, m.insert key ⟨entry.count + 1, entry.startTime⟩)

/-- Run `RateLimiter.Allow` for the same key at a sequence of times,
collecting the decisions and the final map. -/
def RateLimiter.run (cfg : RateLimitConfig) (key : String) :
    GoMap rateLimitEntry → List Int → List Bool × GoMap rateLimitEntry
  | m, [] => ([], m)
  | m, t :: ts =>
    let r := RateLimiter.Allow cfg t m key
    let rest := RateLimiter.run cfg key r.2 ts
    (r.1 :: rest.1, rest.2)

theorem RateLimiter.run_nil (cfg : RateLimitConfig) (key : String) (m : GoMap rateLimitEntry) :
    RateLimiter.run cfg key m [] = ([], m) := rfl

theorem RateLimiter.run_cons (cfg : RateLimitConfig) (key : String) (m : GoMap rateLimitEntry)
    (t : Int) (ts : List Int) :
    RateLimiter.run cfg key m (t :: ts) =
      ((RateLimiter.Allow cfg t m key).1 ::
        (RateLimiter.run cfg key (RateLimiter.Allow cfg t m key).2 ts).1,
       (RateLimiter.run cfg key (RateLimiter.Allow cfg t m key).2 ts).2) := rfl

/-- Within the window and below the cap, a call increments the count and
keeps the window start. -/
theorem RateLimiter.Allow_increment (cfg : RateLimitConfig) (now : Int)
    (m : GoMap rateLimitEntry) (key : String) (c t0 : Int)
    (hm : m key = some ⟨c, t0⟩) (hwin : now - t0 ≤ cfg.Window) (hc : c < cfg.MaxRequests) :
    RateLimiter.Allow cfg now m key = (true, m.insert key ⟨c + 1, t0⟩) := by
  simp only [RateLimiter.Allow, hm]
  rw [if_neg (by omega)]
  rw [if_neg (by omega)]

/-- Iterating in-window calls below the cap: all allowed, count accumulates,
window start unchanged. -/
theorem RateLimiter.run_fill (cfg : RateLimitConfig) (key : String) :
    ∀ (ts : List Int) (m : GoMap rateLimitEntry) (c t0 : Int),
      m key = some ⟨c, t0⟩ →
      (∀ t ∈ ts, t - t0 ≤ cfg.Window) →
      c + ts.length ≤ cfg.MaxRequests →
      (RateLimiter.run cfg key m ts).1 = List.replicate ts.length true ∧
      (RateLimiter.run cfg key m ts).2 key = some ⟨c + ts.length, t0⟩ := by
  intro ts
  induction ts with
  | nil =>
    intro m c t0 hm _ _
    simp [RateLimiter.run_nil, hm]
  | cons t ts' ih =>
    intro m c t0 hm hwin hcap
    have hlen : ((t :: ts').length : Int) = (ts'.length : Int) + 1 := by
      simp only [List.length_cons]; push_cast; ring
    have hstep := RateLimiter.Allow_increment cfg t m key c t0 hm
      (hwin t (by simp)) (by rw [hlen] at hcap; omega)
    have hm' : (m.insert key ⟨c + 1, t0⟩) key = some ⟨c + 1, t0⟩ := GoMap.insert_self _ _ _
    have hrest := ih (m.insert key ⟨c + 1, t0⟩) (c + 1) t0 hm'
      (fun t' ht' => hwin t' (by simp [ht'])) (by rw [hlen] at hcap; omega)
    rw [RateLimiter.run_cons]
    rw [hstep]
    refine ⟨?_, ?_⟩
    · show true :: _ = _
      rw [List.length_cons, List.replicate_succ]
      exact congrArg (true :: ·) hrest.1
    · show (RateLimiter.run cfg key (m.insert key ⟨c + 1, t0⟩) ts').2 key = _
      rw [hrest.2]
      have : c + 1 + (ts'.length : Int) = c + ((t :: ts').length : Int) := by
        rw [hlen]; ring
      rw [this]

theorem RateLimiter.Allow_fresh (cfg : RateLimitConfig) (now : Int)
    (m : GoMap rateLimitEntry) (key : String) (hm : m key = none) :
    RateLimiter.Allow cfg now m key = (true, m.insert key ⟨1, now⟩) := by
  simp only [RateLimiter.Allow, hm]

theorem RateLimiter.Allow_reject (cfg : RateLimitConfig) (now : Int)
    (m : GoMap rateLimitEntry) (key : String) (c t0 : Int)
    (hm : m key = some ⟨c, t0⟩) (hwin : now - t0 ≤ cfg.Window) (hc : cfg.MaxRequests ≤ c) :
    RateLimiter.Allow cfg now m key = (false, m) := by
  simp only [RateLimiter.Allow, hm]
  rw [if_neg (by omega)]
  rw [if_pos (by omega)]

theorem RateLimiter.Allow_reset (cfg : RateLimitConfig) (now : Int)
    (m : GoMap rateLimitEntry) (key : String) (e : rateLimitEntry)
    (hm : m key = some e) (hwin : cfg.Window < now - e.startTime) :
    RateLimiter.Allow cfg now m key = (true, m.insert key ⟨1, now⟩) := by
  simp only [RateLimiter.Allow, hm]
  rw [if_pos hwin]

theorem RateLimiter.run_append (cfg : RateLimitConfig) (key : String) :
    ∀ (a b : List Int) (m : GoMap rateLimitEntry),
      RateLimiter.run cfg key m (a ++ b) =
        ((RateLimiter.run cfg key m a).1 ++
          (RateLimiter.run cfg key (RateLimiter.run cfg key m a).2 b).1,
         (RateLimiter.run cfg key (RateLimiter.run cfg key m a).2 b).2) := by
  intro a
  induction a with
  | nil => intro b m; simp [RateLimiter.run_nil]
  | cons t a' ih =>
    intro b m
    rw [List.cons_append, RateLimiter.run_cons, ih, RateLimiter.run_cons]
    rfl

/-- **C2** (fixed-window limiter, `RateLimiter.Allow`, jwt.go lines 286-307).
For `MaxRequests = N > 0` and a key with no entry, a sequence of `N + 1`
calls all falling inside one window (each call time `t` with
`t - t0 ≤ Window`, `t0` the first call time) yields exactly `N` `true`
decisions followed by one `false`; a subsequent call at a time `tnext` with
`tnext - t0 > Window` is allowed again and resets the entry to count `1`
with window start `tnext`. -/
theorem fixed_window_limit (cfg : RateLimitConfig) (n : Nat) (hn : 0 < n)
    (hmax : cfg.MaxRequests = (n : Int)) (m : GoMap rateLimitEntry) (key : String)
    (hkey : m key = none) (t0 : Int) (rest : List Int) (hlen : rest.length = n)
    (hwin : ∀ t ∈ rest, t - t0 ≤ cfg.Window) (tnext : Int) (hnext : cfg.Window < tnext - t0) :
    (RateLimiter.run cfg key m (t0 :: rest)).1 = List.replicate n true ++ [false] ∧
    (RateLimiter.Allow cfg tnext (RateLimiter.run cfg key m (t0 :: rest)).2 key).1 = true ∧
    (RateLimiter.Allow cfg tnext (RateLimiter.run cfg key m (t0 :: rest)).2 key).2 key
      = some ⟨1, tnext⟩ := by
  obtain ⟨k, rfl⟩ : ∃ k, n = k + 1 := ⟨n - 1, by omega⟩
  have hrestne : rest ≠ [] := by
    intro h; rw [h] at hlen; simp at hlen
  obtain ⟨mid, tl, hsplit⟩ : ∃ mid tl, rest = mid ++ [tl] := by
    refine ⟨rest.dropLast, rest.getLast hrestne, ?_⟩
    rw [List.dropLast_append_getLast hrestne]
  have hmidlen : mid.length = k := by
    rw [hsplit] at hlen
    simp at hlen
    omega
  subst hsplit
  -- first call: fresh entry
  have h1 := RateLimiter.Allow_fresh cfg t0 m key hkey
  set m1 := m.insert key (⟨1, t0⟩ : rateLimitEntry) with hm1def
  have hm1 : m1 key = some ⟨1, t0⟩ := GoMap.insert_self _ _ _
  -- middle calls: fill to the cap
  have hfill := RateLimiter.run_fill cfg key mid m1 1 t0 hm1
    (fun t ht => hwin t (by simp [ht]))
    (by rw [hmax, hmidlen]; push_cast; omega)
  set m2 := (RateLimiter.run cfg key m1 mid).2 with hm2def
  have hm2 : m2 key = some ⟨1 + (mid.length : Int), t0⟩ := hfill.2
  -- the (N+1)th call in the window: rejected
  have htl := RateLimiter.Allow_reject cfg tl m2 key (1 + (mid.length : Int)) t0 hm2
    (hwin tl (by simp)) (by rw [hmax, hmidlen]; push_cast; omega)
  have hrun : RateLimiter.run cfg key m (t0 :: (mid ++ [tl])) =
      (true :: ((RateLimiter.run cfg key m1 mid).1 ++ [false]), m2) := by
    rw [RateLimiter.run_cons, h1]
    show (true :: (RateLimiter.run cfg key m1 (mid ++ [tl])).1,
          (RateLimiter.run cfg key m1 (mid ++ [tl])).2) = _
    rw [RateLimiter.run_append cfg key mid [tl] m1]
    rw [RateLimiter.run_cons, htl]
    rfl
  rw [hrun]
  have hreset := RateLimiter.Allow_reset cfg tnext m2 key ⟨1 + (mid.length : Int), t0⟩ hm2 hnext
  refine ⟨?_, ?_, ?_⟩
  · show true :: ((RateLimiter.run cfg key m1 mid).1 ++ [false]) = _
    rw [hfill.1, hmidlen, List.replicate_succ]
    rfl
  · show (RateLimiter.Allow cfg tnext m2 key).1 = true
    rw [hreset]
  · show (RateLimiter.Allow cfg tnext m2 key).2 key = some ⟨1, tnext⟩
    rw [hreset]
    exact GoMap.insert_self _ _ _

/-- Witness for C2 at `Window = 10`, `MaxRequests = 2`, calls at `0, 1, 2`
and a reset call at `100`. -/
theorem fixed_window_limit_witness :
    (RateLimiter.run ⟨10, 2⟩ "k" GoMap.empty (0 :: [1, 2])).1 = List.replicate 2 true ++ [false] ∧
    (RateLimiter.Allow ⟨10, 2⟩ 100 (RateLimiter.run ⟨10, 2⟩ "k" GoMap.empty (0 :: [1, 2])).2 "k").1
      = true ∧
    (RateLimiter.Allow ⟨10, 2⟩ 100 (RateLimiter.run ⟨10, 2⟩ "k" GoMap.empty (0 :: [1, 2])).2 "k").2 "k"
      = some ⟨1, 100⟩ :=
  fixed_window_limit ⟨10, 2⟩ 2 (by decide) (by decide) GoMap.empty "k" rfl 0 [1, 2] (by decide)
    (by decide) 100 (by decide)

/-- `SlidingWindowRateLimiter.Allow` (jwt.go lines 434-457): timestamps older
than `now - Window` are filtered out; if at least `MaxRequests` remain the
call is rejected (and the filtered list stored); otherwise `now` is appended
and the call allowed. A missing key yields the empty (nil) slice. -/
def SlidingWindowRateLimiter.Allow (cfg : RateLimitConfig) (now : Int)
    (m : GoMap (List Int)) (key : String) : Bool × GoMap (List Int) :=
  let times := (m key).getD []
  let valid := times.filter (fun t => decide (now - t ≤ cfg.Window))
  if cfg.MaxRequests ≤ (valid.length : Int) then (false, m.insert key valid)
  else (true, m.insert key (valid ++ [now]))

/-- Run the sliding-window limiter for one key over a sequence of call times,
recording each call time with its decision. -/
def SlidingWindowRateLimiter.trace (cfg : RateLimitConfig) (key : String) :
    GoMap (List Int) → List Int → List (Int × Bool)
  | _, [] => []
  | m, t :: ts =>
    let r := SlidingWindowRateLimiter.Allow cfg t m key
    (t, r.1) :: SlidingWindowRateLimiter.trace cfg key r.2 ts

/-- Membership of a time in the closed interval `[a, a + W]`. -/
def inWinB (a W t : Int) : Bool := decide (a ≤ t) && decide (t ≤ a + W)

/-- Number of allowed calls of a trace whose times lie in `[a, a + W]`. -/
def hitCount (a W : Int) (tr : List (Int × Bool)) : Nat :=
  (tr.filter (fun p => p.2 && inWinB a W p.1)).length

/-- Number of stored timestamps lying in `[a, a + W]`. -/
def inWinLen (a W : Int) (l : List Int) : Nat := (l.filter (inWinB a W)).length

theorem hitCount_cons (a W t : Int) (b : Bool) (tr : List (Int × Bool)) :
    hitCount a W ((t, b) :: tr) = (if b && inWinB a W t then 1 else 0) + hitCount a W tr := by
  simp only [hitCount, List.filter_cons]
  split <;> simp <;> omega

theorem inWinLen_append_singleton (a W s : Int) (l : List Int) :
    inWinLen a W (l ++ [s]) = inWinLen a W l + (if inWinB a W s then 1 else 0) := by
  simp only [inWinLen, List.filter_append, List.length_append]
  simp only [List.filter_cons, List.filter_nil]
  split <;> simp

theorem trace_hit_le (cfg : RateLimitConfig) (key : String) (a : Int) :
    ∀ (ts : List Int) (m : GoMap (List Int)),
      hitCount a cfg.Window (SlidingWindowRateLimiter.trace cfg key m ts)
        ≤ (ts.filter (inWinB a cfg.Window)).length := by
  intro ts
  induction ts with
  | nil => intro m; simp [SlidingWindowRateLimiter.trace, hitCount]
  | cons s ts' ih =>
    intro m
    rw [SlidingWindowRateLimiter.trace]
    rw [hitCount_cons]
    rw [List.filter_cons]
    by_cases hw : inWinB a cfg.Window s
    · rw [if_pos hw]
      have := ih (SlidingWindowRateLimiter.Allow cfg s m key).2
      simp only [List.length_cons]
      split <;> omega
    · rw [if_neg hw]
      have := ih (SlidingWindowRateLimiter.Allow cfg s m key).2
      simp only [Bool.and_eq_true] at *
      rw [if_neg (by simp [hw])]
      omega

/-- Filtering out timestamps older than `now - W` does not change the number
of stored timestamps inside `[a, a + W]`, provided `now ≤ a + W`. -/
theorem inWinLen_filter_eq (W a now : Int) (hnow : now ≤ a + W) (l : List Int) :
    inWinLen a W (l.filter (fun t => decide (now - t ≤ W))) = inWinLen a W l := by
  unfold inWinLen
  rw [List.filter_filter]
  congr 1
  apply List.filter_congr
  intro t _
  by_cases hin : inWinB a W t
  · have ha : a ≤ t := by
      have := hin
      simp only [inWinB, Bool.and_eq_true, decide_eq_true_eq] at this
      exact this.1
    have : now - t ≤ W := by omega
    simp [hin, this]
  · simp [hin]

theorem inWinLen_le_length (a W : Int) (l : List Int) : inWinLen a W l ≤ l.length :=
  List.length_filter_le _ l

/-- Core sliding-window invariant: for non-decreasing call times, the number
of allowed calls inside any interval `[a, a + W]`, plus the stored in-window
timestamps at the start, never exceeds `max N` (initial in-window count). -/
theorem sliding_window_invariant (cfg : RateLimitConfig) (key : String) (a : Int) (n : Nat)
    (hmax : cfg.MaxRequests = (n : Int)) :
    ∀ (ts : List Int) (m : GoMap (List Int)), List.Sorted (· ≤ ·) ts →
      hitCount a cfg.Window (SlidingWindowRateLimiter.trace cfg key m ts)
          + inWinLen a cfg.Window ((m key).getD [])
        ≤ max n (inWinLen a cfg.Window ((m key).getD [])) := by
  intro ts
  induction ts with
  | nil =>
    intro m _
    simp [SlidingWindowRateLimiter.trace, hitCount, Nat.le_max_right]
  | cons s ts' ih =>
    intro m hsort
    rw [List.sorted_cons] at hsort
    obtain ⟨hhead, hsort'⟩ := hsort
    by_cases hout : a + cfg.Window < s
    · -- all calls (current and future) lie beyond the interval: no hits at all
      have hnone : ((s :: ts').filter (inWinB a cfg.Window)).length = 0 := by
        rw [List.length_eq_zero]
        rw [List.filter_eq_nil_iff]
        intro t ht
        simp only [List.mem_cons] at ht
        have hts : a + cfg.Window < t := by
          rcases ht with rfl | ht
          · exact hout
          · have := hhead t ht; omega
        simp [inWinB]
        intro
        omega
      have hle := trace_hit_le cfg key a (s :: ts') m
      rw [hnone] at hle
      have := Nat.le_max_right n (inWinLen a cfg.Window ((m key).getD []))
      omega
    · push_neg at hout
      rw [SlidingWindowRateLimiter.trace]
      set l := (m key).getD [] with hl
      set valid := l.filter (fun t => decide (s - t ≤ cfg.Window)) with hvalid
      have hwl : inWinLen a cfg.Window valid = inWinLen a cfg.Window l :=
        inWinLen_filter_eq cfg.Window a s hout l
      by_cases hrej : cfg.MaxRequests ≤ (valid.length : Int)
      · -- rejected: store the filtered list, decision false
        have hstep : SlidingWindowRateLimiter.Allow cfg s m key = (false, m.insert key valid) := by
          simp only [SlidingWindowRateLimiter.Allow, ← hl, ← hvalid]
          rw [if_pos hrej]
        rw [hstep]
        rw [hitCount_cons]
        have hm' : ((m.insert key valid) key).getD [] = valid := by
          rw [GoMap.insert_self]; rfl
        have hih := ih (m.insert key valid) hsort'
        rw [hm', hwl] at hih
        simp only [Bool.false_and, if_neg (by simp : ¬(false = true))]
        omega
      · -- allowed: append `s`, decision true
        push_neg at hrej
        have hstep : SlidingWindowRateLimiter.Allow cfg s m key
            = (true, m.insert key (valid ++ [s])) := by
          simp only [SlidingWindowRateLimiter.Allow, ← hl, ← hvalid]
          rw [if_neg (by omega)]
        rw [hstep]
        rw [hitCount_cons]
        have hm' : ((m.insert key (valid ++ [s])) key).getD [] = valid ++ [s] := by
          rw [GoMap.insert_self]; rfl
        have hih := ih (m.insert key (valid ++ [s])) hsort'
        rw [hm'] at hih
        rw [inWinLen_append_singleton, hwl] at hih
        by_cases hin : inWinB a cfg.Window s
        · have hlt : inWinLen a cfg.Window l < n := by
            have h1 := inWinLen_le_length a cfg.Window valid
            rw [hwl] at h1
            rw [hmax] at hrej
            omega
          rw [if_pos hin] at hih
          have hmx1 : max n (inWinLen a cfg.Window l + 1) = n := Nat.max_eq_left (by omega)
          have hmx2 : max n (inWinLen a cfg.Window l) = n := Nat.max_eq_left (by omega)
          rw [hmx1] at hih
          rw [hmx2]
          simp only [Bool.true_and, hin, if_pos]
          omega
        · rw [if_neg hin] at hih
          simp only [hin, Bool.and_false, if_neg (by simp : ¬(false = true))]
          omega

/-- **C3** (sliding-window limiter, `SlidingWindowRateLimiter.Allow`,
jwt.go lines 434-457). For `MaxRequests = N`, over any sequence of calls for
a key at non-decreasing times (successive readings of the clock), at most
`N` of the calls whose times fall inside any interval `[a, a + Window]`
are allowed, regardless of the alignment `a`. -/
theorem sliding_window_limit (cfg : RateLimitConfig) (key : String) (n : Nat)
    (hmax : cfg.MaxRequests = (n : Int)) (ts : List Int)
    (hsort : List.Sorted (· ≤ ·) ts) (a : Int) :
    hitCount a cfg.Window (SlidingWindowRateLimiter.trace cfg key GoMap.empty ts) ≤ n := by
  have h := sliding_window_invariant cfg key a n hmax ts GoMap.empty hsort
  simp only [GoMap.empty_apply, Option.getD_none] at h
  have hz : inWinLen a cfg.Window [] = 0 := rfl
  rw [hz] at h
  simpa using h

/-- Witness for C3: window 10, max 1, calls at 0, 5, 20, interval `[0, 10]`. -/
theorem sliding_window_limit_witness :
    hitCount 0 (RateLimitConfig.mk 10 1).Window
      (SlidingWindowRateLimiter.trace ⟨10, 1⟩ "k" GoMap.empty [0, 5, 20]) ≤ 1 :=
  sliding_window_limit ⟨10, 1⟩ "k" 1 (by decide) [0, 5, 20] (by decide) 0

/-! ## API signature verification (`internal/middleware/signature.go`)

The Go code calls the stdlib crypto primitives (`crypto/hmac` with
`crypto/sha256`, `crypto/md5`); these are external to the repository and are
modelled as an abstract `HashModel`. `time.Now()` and the random nonce of
`generateNonce()` are impure inputs and are lifted to explicit parameters. -/

structure SignatureConfig where
  SecretKey : String
  Expiry : Int
  Algorithm : String
  TimeTolerance : Int
  SignatureParam : String
  TimestampParam : String
  NonceParam : String
  AppKeyParam : String
  ValidateBody : Bool

/-- `DefaultSignatureConfig` (signature.go lines 43-53); durations in seconds. -/
def DefaultSignatureConfig : SignatureConfig :=
  { SecretKey := "your-api-secret-key"
    Expiry := 300
    Algorithm := "hmac-sha256"
    TimeTolerance := 120
    SignatureParam := "sign"
    TimestampParam := "timestamp"
    NonceParam := "nonce"
    AppKeyParam := "app_key"
    ValidateBody := true }

/-- Abstract model of the external hash primitives: `hmacSha256Hex key data`
is the hex HMAC-SHA256 digest, `md5Hex data` the hex MD5 digest. -/
structure HashModel where
  hmacSha256Hex : String → String → String
  md5Hex : String → String

/-- `calculateSignature` (signature.go lines 213-228). -/
def calculateSignature (H : HashModel) (data secretKey algorithm : String) : String :=
  if algorithm = "hmac-sha256" then H.hmacSha256Hex secretKey data
  else if algorithm = "md5" then H.md5Hex (data ++ secretKey)
  else H.hmacSha256Hex secretKey data

/-- The request fields read by the signature middleware. `query` is the
ordered list of URL query key/value pairs; the `header*` fields are the
`X-Signature`, `X-Timestamp`, `X-Nonce` and `X-App-Key` headers (empty
string when absent). -/
structure SigRequest where
  method : String
  path : String
  query : List (String × String)
  headerSignature : String
  headerTimestamp : String
  headerNonce : String
  headerAppKey : String
  body : String

/-- Model of gin's `c.Query(k)`: first value of the query parameter, or "". -/
def queryFirst (q : List (String × String)) (k : String) : String :=
  match q.find? (fun p => p.1 == k) with
  | some p => p.2
  | none => ""

/-- All values of a query parameter, in URL order (`url.Values[key]`). -/
def queryValues (q : List (String × String)) (k : String) : List String :=
  (q.filter (fun p => p.1 == k)).map Prod.snd

/-- The distinct query-parameter keys (`url.Values` map keys). -/
def queryKeysOf (q : List (String × String)) : List String := (q.map Prod.fst).dedup

/-- Model of Go `sort.Strings` (byte-lexicographic, which for UTF-8 agrees
with code-point order, i.e. with `String` order). -/
def sortStrings (l : List String) : List String := l.insertionSort (· ≤ ·)

/-- The `k=v` parts contributed by the sorted query keys, with the values of
each key sorted (inner loops of `buildSignString`, signature.go lines 178-184). -/
def kvParts (q : List (String × String)) : List String → List String
  | [] => []
  | key :: rest =>
    (sortStrings (queryValues q key)).map (fun v => key ++ "=" ++ v) ++ kvParts q rest

/-- The ordered parts of the canonical signing string built by the verifier
(`buildSignString`, signature.go lines 157-210): method, path, sorted
non-signature query parameters, timestamp, nonce (if non-empty), appKey
(if non-empty), body (if body validation is on and the body is non-empty). -/
def signParts (config : SignatureConfig) (req : SigRequest)
    (timestamp nonce appKey : String) : List String :=
  let filteredKeys := (queryKeysOf req.query).filter (fun key =>
    key != config.SignatureParam && key != config.TimestampParam &&
    key != config.NonceParam && key != config.AppKeyParam)
  [req.method, req.path] ++ kvParts req.query (sortStrings filteredKeys) ++ [timestamp]
    ++ (if nonce != "" then [nonce] else [])
    ++ (if appKey != "" then [appKey] else [])
    ++ (if config.ValidateBody && req.body != "" then [req.body] else [])

/-- `buildSignString` (signature.go lines 157-210). -/
def buildSignString (config : SignatureConfig) (req : SigRequest)
    (timestamp nonce appKey : String) : String :=
  goJoin "&" (signParts config req timestamp nonce appKey)

/-- Outcome of one run of the signature-verification middleware. -/
inductive SigOutcome where
  | missingParams
  | invalidTimestamp
  | expired
  | duplicateNonce
  | badSignature
  | pass
deriving DecidableEq

/-- HTTP status written by the middleware for each outcome (`none` = no
short-circuit, request forwarded). -/
def SigOutcome.status : SigOutcome → Option Nat
  | .pass => none
  | .badSignature => some 401
  | _ => some 400

/-- The process-wide nonce ledger `nonceStore : map[string]time.Time`. -/
abbrev NonceStore := GoMap Int

/-- `cleanupNonce` (signature.go lines 231-238). -/
def cleanupNonce (expiry now : Int) (store : NonceStore) : NonceStore :=
  fun k =>
    match store k with
    | some t => if expiry < now - t then none else some t
    | none => none

/-- Header with query-parameter fallback, as read for the signature value. -/
def effSignature (config : SignatureConfig) (req : SigRequest) : String :=
  if req.headerSignature != "" then req.headerSignature
  else queryFirst req.query config.SignatureParam

def effTimestamp (config : SignatureConfig) (req : SigRequest) : String :=
  if req.headerTimestamp != "" then req.headerTimestamp
  else queryFirst req.query config.TimestampParam

def effNonce (config : SignatureConfig) (req : SigRequest) : String :=
  if req.headerNonce != "" then req.headerNonce
  else queryFirst req.query config.NonceParam

def effAppKey (config : SignatureConfig) (req : SigRequest) : String :=
  if req.headerAppKey != "" then req.headerAppKey
  else queryFirst req.query config.AppKeyParam

/-- `APISignatureWithConfig` (signature.go lines 64-154), sequential body.
`now` is the value of `time.Now()` in Unix seconds. The `go cleanupNonce`
launched on the nonce path runs asynchronously and is modelled separately by
`cleanupNonce`. Returns the outcome and the updated nonce ledger. -/
def APISignatureWithConfig (H : HashModel) (config : SignatureConfig) (now : Int)
    (req : SigRequest) (store : NonceStore) : SigOutcome × NonceStore :=
  let signature := effSignature config req
  let timestamp := effTimestamp config req
  let nonce := effNonce config req
  let appKey := effAppKey config req
  if signature = "" ∨ timestamp = "" then (.missingParams, store)
  else
    match parseGoInt64 timestamp with
    | none => (.invalidTimestamp, store)
    | some ts =>
      if config.Expiry < now - ts ∨ config.TimeTolerance < ts - now then (.expired, store)
      else if nonce != "" && (store nonce).isSome then (.duplicateNonce, store)
      else
        let store1 := if nonce != "" then store.insert nonce now else store
        let expectedSign := calculateSignature H
          (buildSignString config req timestamp nonce appKey) config.SecretKey config.Algorithm
        if signature = expectedSign then (.pass, store1) else (.badSignature, store1)

/-- The ordered parts of the client-side signing string
(`GenerateSignature`, signature.go lines 241-271): method, path, sorted
parameter keys with their values, timestamp, nonce, body (if non-empty).
Note: no appKey part. -/
def genParts (method path : String) (params : List (String × String))
    (body timestamp nonce : String) : List String :=
  [method, path]
    ++ (sortStrings (params.map Prod.fst)).map
        (fun key => key ++ "=" ++ ((params.lookup key).getD ""))
    ++ [timestamp, nonce]
    ++ (if body != "" then [body] else [])

/-- The client-side signing string of `GenerateSignature`. -/
def genSignString (method path : String) (params : List (String × String))
    (body timestamp nonce : String) : String :=
  goJoin "&" (genParts method path params body timestamp nonce)

/-- `GenerateSignature` (signature.go lines 241-271). `t` is `time.Now().Unix()`
and `nonce` the value of `generateNonce()` (a 16-character hex string, hence
non-empty), both lifted to parameters. Returns (signature, timestamp, nonce). -/
def GenerateSignature (H : HashModel) (method path : String)
    (params : List (String × String)) (body secretKey : String)
    (t : Int) (nonce : String) : String × String × String :=
  let timestamp := goFormatInt t
  (calculateSignature H (genSignString method path params body timestamp nonce)
     secretKey "hmac-sha256", timestamp, nonce)

theorem parseGoInt64_empty : parseGoInt64 "" = none := rfl

theorem queryValues_singleton (params : List (String × String)) :
    (params.map Prod.fst).Nodup → ∀ k, k ∈ params.map Prod.fst →
      params.lookup k ≠ none ∧ queryValues params k = [(params.lookup k).getD ""] := by
  induction params with
  | nil => intro _ k hk; simp at hk
  | cons p rest ih =>
    intro hnodup k hk
    obtain ⟨k', v'⟩ := p
    simp only [List.map_cons, List.nodup_cons] at hnodup
    obtain ⟨hk', hnodup'⟩ := hnodup
    by_cases hkk : k = k'
    · subst hkk
      have hfilter : rest.filter (fun p => p.1 == k) = [] := by
        rw [List.filter_eq_nil_iff]
        intro p hp
        simp only [beq_iff_eq]
        intro hpk
        exact hk' (by rw [← hpk]; exact List.mem_map_of_mem Prod.fst hp)
      constructor
      · simp [List.lookup]
      · simp [queryValues, List.filter_cons, hfilter, List.lookup]
    · have hkrest : k ∈ rest.map Prod.fst := by
        simp only [List.map_cons, List.mem_cons] at hk
        tauto
      have hres := ih hnodup' k hkrest
      constructor
      · simpa [List.lookup, beq_false_of_ne hkk] using hres.1
      · have : queryValues ((k', v') :: rest) k = queryValues rest k := by
          simp [queryValues, List.filter_cons, beq_false_of_ne (Ne.symm hkk)]
        rw [this]
        simpa [List.lookup, beq_false_of_ne hkk] using hres.2

theorem sortStrings_singleton (v : String) : sortStrings [v] = [v] := rfl

theorem kvParts_eq_map (params : List (String × String))
    (hnodup : (params.map Prod.fst).Nodup) :
    ∀ keys : List String, (∀ k ∈ keys, k ∈ params.map Prod.fst) →
      kvParts params keys = keys.map (fun key => key ++ "=" ++ ((params.lookup key).getD "")) := by
  intro keys
  induction keys with
  | nil => intro _; rfl
  | cons key rest ih =>
    intro hmem
    rw [kvParts]
    rw [(queryValues_singleton params hnodup key (hmem key (by simp))).2]
    rw [sortStrings_singleton]
    rw [ih (fun k hk => hmem k (by simp [hk]))]
    rfl

theorem mem_sortStrings {l : List String} {k : String} (h : k ∈ sortStrings l) : k ∈ l :=
  (List.Perm.mem_iff (List.perm_insertionSort _ l)).mp h

/-- On a request whose query is a duplicate-free parameter list avoiding the
four signature parameter names, presented with no app key, the verifier's
canonical signing string parts coincide with the client's. -/
theorem signParts_eq_genParts (config : SignatureConfig)
    (method path body sig tsStr nonce : String) (params : List (String × String))
    (hnodup : (params.map Prod.fst).Nodup)
    (hres : ∀ p ∈ params, p.1 ≠ config.SignatureParam ∧ p.1 ≠ config.TimestampParam ∧
      p.1 ≠ config.NonceParam ∧ p.1 ≠ config.AppKeyParam)
    (hVB : config.ValidateBody = true) (hnonce : nonce ≠ "") :
    signParts config ⟨method, path, params, sig, tsStr, nonce, "", body⟩ tsStr nonce ""
      = genParts method path params body tsStr nonce := by
  unfold signParts genParts
  have hdedup : (params.map Prod.fst).dedup = params.map Prod.fst :=
    List.dedup_eq_self.mpr hnodup
  have hfilter : (params.map Prod.fst).filter (fun key =>
      key != config.SignatureParam && key != config.TimestampParam &&
      key != config.NonceParam && key != config.AppKeyParam) = params.map Prod.fst := by
    rw [List.filter_eq_self]
    intro k hk
    obtain ⟨p, hp, rfl⟩ := List.mem_map.mp hk
    have := hres p hp
    simp [bne_iff_ne]
    tauto
  show [method, path] ++ kvParts params (sortStrings ((queryKeysOf params).filter _)) ++ _ ++ _ ++ _ ++ _ = _
  rw [queryKeysOf, hdedup, hfilter]
  rw [kvParts_eq_map params hnodup (sortStrings (params.map Prod.fst))
    (fun k hk => mem_sortStrings hk)]
  have hn : (nonce != "") = true := by simp [bne_iff_ne]; exact hnonce
  have hak : (("" : String) != "") = false := by simp
  rw [hVB, hn, hak]
  simp

theorem natToDecimal_ne_empty (n : Nat) : natToDecimal n ≠ "" := by
  unfold natToDecimal
  split
  · decide
  · intro h
    have hd := congrArg String.data h
    simp only at hd
    have := natToDigitsRev_ne_nil n (Nat.pos_of_ne_zero (by assumption))
    rw [List.reverse_eq_nil_iff] at hd
    exact this hd

theorem goFormatInt_ne_empty (t : Int) : goFormatInt t ≠ "" := by
  unfold goFormatInt
  split
  · intro h
    have := congrArg String.length h
    have hm : ("-" : String).length = 1 := rfl
    simp only [String.length_append, hm] at this
    simp at this
  · exact natToDecimal_ne_empty t.natAbs

theorem effSignature_header (config : SignatureConfig) (req : SigRequest)
    (h : req.headerSignature ≠ "") : effSignature config req = req.headerSignature := by
  simp [effSignature, bne_iff_ne, h]

theorem effTimestamp_header (config : SignatureConfig) (req : SigRequest)
    (h : req.headerTimestamp ≠ "") : effTimestamp config req = req.headerTimestamp := by
  simp [effTimestamp, bne_iff_ne, h]

theorem effNonce_header (config : SignatureConfig) (req : SigRequest)
    (h : req.headerNonce ≠ "") : effNonce config req = req.headerNonce := by
  simp [effNonce, bne_iff_ne, h]

theorem queryFirst_of_absent (q : List (String × String)) (k : String)
    (h : ∀ p ∈ q, p.1 ≠ k) : queryFirst q k = "" := by
  unfold queryFirst
  have : q.find? (fun p => p.1 == k) = none := by
    rw [List.find?_eq_none]
    intro p hp
    simp [h p hp]
  rw [this]

theorem effAppKey_absent (config : SignatureConfig) (req : SigRequest)
    (hh : req.headerAppKey = "") (hq : ∀ p ∈ req.query, p.1 ≠ config.AppKeyParam) :
    effAppKey config req = "" := by
  unfold effAppKey
  rw [hh]
  simp [queryFirst_of_absent req.query config.AppKeyParam hq]

/-- Reduction of `APISignatureWithConfig` for a request that passes the
parameter, timestamp and nonce checks: the run reduces to the constant-time
signature comparison, with the nonce recorded in the ledger either way. -/
theorem APISignatureWithConfig_compare (H : HashModel) (config : SignatureConfig)
    (now ts : Int) (req : SigRequest) (store : NonceStore)
    (hsig : effSignature config req ≠ "")
    (hts : parseGoInt64 (effTimestamp config req) = some ts)
    (hfr1 : now - ts ≤ config.Expiry) (hfr2 : ts - now ≤ config.TimeTolerance)
    (hnonce : effNonce config req ≠ "")
    (hstore : store (effNonce config req) = none) :
    APISignatureWithConfig H config now req store =
      ((if effSignature config req =
          calculateSignature H
            (buildSignString config req (effTimestamp config req) (effNonce config req)
              (effAppKey config req)) config.SecretKey config.Algorithm
        then SigOutcome.pass else SigOutcome.badSignature),
       store.insert (effNonce config req) now) := by
  have htsne : effTimestamp config req ≠ "" := by
    intro h
    rw [h, parseGoInt64_empty] at hts
    exact Option.noConfusion hts
  simp only [APISignatureWithConfig]
  rw [if_neg (by push_neg; exact ⟨hsig, htsne⟩)]
  split
  · rename_i heq
    rw [hts] at heq
    exact Option.noConfusion heq
  · rename_i ts' heq
    rw [hts] at heq
    obtain rfl : ts' = ts := by injection heq with h; exact h.symm
    rw [if_neg (by push_neg; constructor <;> omega)]
    rw [if_neg (by rw [hstore]; simp)]
    have hnB : (effNonce config req != "") = true := by simpa [bne_iff_ne] using hnonce
    rw [if_pos hnB]
    by_cases hc : effSignature config req =
        calculateSignature H
          (buildSignString config req (effTimestamp config req) (effNonce config req)
            (effAppKey config req)) config.SecretKey config.Algorithm
    · rw [if_pos hc, if_pos hc]
    · rw [if_neg hc, if_neg hc]

theorem lookup_of_mem_nodup (params : List (String × String))
    (hnodup : (params.map Prod.fst).Nodup) (k v : String) (h : (k, v) ∈ params) :
    params.lookup k = some v := by
  induction params with
  | nil => simp at h
  | cons p rest ih =>
    obtain ⟨k', v'⟩ := p
    simp only [List.map_cons, List.nodup_cons] at hnodup
    rcases List.mem_cons.mp h with heq | hmem
    · injection heq with h1 h2
      subst h1
      subst h2
      simp [List.lookup]
    · have hkmem : k ∈ rest.map Prod.fst := List.mem_map_of_mem Prod.fst hmem
      have hkk : k ≠ k' := by
        intro hkk
        rw [hkk] at hkmem
        exact hnodup.1 hkmem
      simpa [List.lookup, beq_false_of_ne hkk] using ih hnodup.2 hmem

theorem lookup_agree_outside (k v v' : String) :
    ∀ (pre : List (String × String)) (post : List (String × String)) (key : String),
      key ≠ k →
      (pre ++ (k, v') :: post).lookup key = (pre ++ (k, v) :: post).lookup key := by
  intro pre
  induction pre with
  | nil =>
    intro post key hkey
    simp [List.lookup, beq_false_of_ne hkey]
  | cons p pre' ih =>
    intro post key hkey
    obtain ⟨k0, v0⟩ := p
    by_cases hk0 : key = k0
    · subst hk0
      simp [List.lookup]
    · simp only [List.cons_append, List.lookup, beq_false_of_ne hk0]
      exact ih post key hkey

theorem genSignString_path_ne (method path path' : String)
    (params : List (String × String)) (body tsStr nonce : String) (h : path' ≠ path) :
    genSignString method path' params body tsStr nonce
      ≠ genSignString method path params body tsStr nonce := by
  intro heq
  apply h
  exact goJoin_inj_at "&" [method] path' path _ heq

theorem genParts_assoc (method path : String) (params : List (String × String))
    (body tsStr nonce : String) :
    genParts method path params body tsStr nonce =
      ([method, path] ++ (sortStrings (params.map Prod.fst)).map
          (fun key => key ++ "=" ++ ((params.lookup key).getD "")) ++ [tsStr, nonce])
        ++ (if body != "" then [body] else []) := by
  unfold genParts
  simp [List.append_assoc]

theorem genSignString_body_ne (method path : String) (params : List (String × String))
    (tsStr nonce : String) (body body' : String) (h : body' ≠ body) :
    genSignString method path params body' tsStr nonce
      ≠ genSignString method path params body tsStr nonce := by
  unfold genSignString
  rw [genParts_assoc, genParts_assoc]
  set core := [method, path] ++ (sortStrings (params.map Prod.fst)).map
    (fun key => key ++ "=" ++ ((params.lookup key).getD "")) ++ [tsStr, nonce] with hcore
  have hcne : core ≠ [] := by simp [hcore]
  by_cases hb' : body' = "" <;> by_cases hb : body = ""
  · exact absurd (hb'.trans hb.symm) h
  · subst hb'
    have hbne : (body != "") = true := by simpa [bne_iff_ne] using hb
    simp only [hbne, if_pos, bne_self_eq_false, if_neg (by simp : ¬(false = true)),
      List.append_nil]
    exact fun heq => goJoin_ne_of_extra core hcne body heq.symm
  · subst hb
    have hbne : (body' != "") = true := by simpa [bne_iff_ne] using hb'
    simp only [hbne, if_pos, bne_self_eq_false, if_neg (by simp : ¬(false = true)),
      List.append_nil]
    exact goJoin_ne_of_extra core hcne body'
  · have hbne : (body != "") = true := by simpa [bne_iff_ne] using hb
    have hbne' : (body' != "") = true := by simpa [bne_iff_ne] using hb'
    simp only [hbne, hbne', if_pos]
    intro heq
    exact h (goJoin_inj_at "&" core body' body [] heq)

theorem genSignString_query_ne (method path body tsStr nonce : String)
    (pre post : List (String × String)) (k v v' : String) (hvv : v' ≠ v)
    (hnodup : ((pre ++ (k, v) :: post).map Prod.fst).Nodup) :
    genSignString method path (pre ++ (k, v') :: post) body tsStr nonce
      ≠ genSignString method path (pre ++ (k, v) :: post) body tsStr nonce := by
  intro heq
  apply hvv
  set params := pre ++ (k, v) :: post with hparams
  set params' := pre ++ (k, v') :: post with hparams'
  have hfst : params'.map Prod.fst = params.map Prod.fst := by
    simp [hparams, hparams']
  have hkmem : k ∈ params.map Prod.fst := by simp [hparams]
  have hnodup' : (params'.map Prod.fst).Nodup := by rw [hfst]; exact hnodup
  have hlkv : params.lookup k = some v :=
    lookup_of_mem_nodup params hnodup k v (by simp [hparams])
  have hlkv' : params'.lookup k = some v' :=
    lookup_of_mem_nodup params' hnodup' k v' (by simp [hparams'])
  have hksorted : k ∈ sortStrings (params.map Prod.fst) :=
    (List.Perm.mem_iff (List.perm_insertionSort _ _)).mpr hkmem
  have hnodupSorted : (sortStrings (params.map Prod.fst)).Nodup :=
    (List.Perm.nodup_iff (List.perm_insertionSort _ _)).mpr hnodup
  obtain ⟨s1, s2, hdec⟩ := List.append_of_mem hksorted
  rw [hdec] at hnodupSorted
  rw [List.nodup_append] at hnodupSorted
  have hks1 : k ∉ s1 := fun hk => hnodupSorted.2.2 hk (by simp)
  have hks2 : k ∉ s2 := by
    have := hnodupSorted.2.1
    rw [List.nodup_cons] at this
    exact this.1
  have hs1map : s1.map (fun key => key ++ "=" ++ ((params'.lookup key).getD ""))
      = s1.map (fun key => key ++ "=" ++ ((params.lookup key).getD "")) := by
    apply List.map_congr_left
    intro key hkey
    have hne : key ≠ k := fun h => hks1 (h ▸ hkey)
    rw [hparams, hparams', lookup_agree_outside k v v' pre post key hne]
  have hs2map : s2.map (fun key => key ++ "=" ++ ((params'.lookup key).getD ""))
      = s2.map (fun key => key ++ "=" ++ ((params.lookup key).getD "")) := by
    apply List.map_congr_left
    intro key hkey
    have hne : key ≠ k := fun h => hks2 (h ▸ hkey)
    rw [hparams, hparams', lookup_agree_outside k v v' pre post key hne]
  have hL : genParts method path params body tsStr nonce
      = ([method, path] ++ s1.map (fun key => key ++ "=" ++ ((params.lookup key).getD "")))
        ++ (k ++ "=" ++ v) ::
          (s2.map (fun key => key ++ "=" ++ ((params.lookup key).getD ""))
            ++ ([tsStr, nonce] ++ (if body != "" then [body] else []))) := by
    unfold genParts
    rw [hdec]
    simp only [List.map_append, List.map_cons]
    rw [hlkv]
    simp [List.append_assoc]
  have hL' : genParts method path params' body tsStr nonce
      = ([method, path] ++ s1.map (fun key => key ++ "=" ++ ((params.lookup key).getD "")))
        ++ (k ++ "=" ++ v') ::
          (s2.map (fun key => key ++ "=" ++ ((params.lookup key).getD ""))
            ++ ([tsStr, nonce] ++ (if body != "" then [body] else []))) := by
    unfold genParts
    rw [hfst, hdec]
    simp only [List.map_append, List.map_cons]
    rw [hlkv', hs1map, hs2map]
    simp [List.append_assoc]
  unfold genSignString at heq
  rw [hL, hL'] at heq
  exact string_append_cancel_left (goJoin_inj_at "&" _ _ _ _ heq)

theorem calculateSignature_hmac (H : HashModel) (d s : String) :
    calculateSignature H d s "hmac-sha256" = H.hmacSha256Hex s d := by
  simp [calculateSignature]

/-- **C1** (amended; `GenerateSignature` and `APISignatureWithConfig`,
signature.go). Over an abstract collision-free HMAC-SHA256 model with
non-empty digests, for every method, path, body, secret and every
duplicate-free query-parameter map whose keys avoid the four configured
signature parameter names, the (signature, timestamp, nonce) triple of
`GenerateSignature`, presented in the `X-Signature`/`X-Timestamp`/`X-Nonce`
headers of a request with the same method, path, query and body (and no app
key), is accepted by `APISignatureWithConfig` (fresh nonce, fresh timestamp,
matching algorithm and secret); and altering the body, or one query value,
or the path makes the verification reject with a signature mismatch. -/
theorem sign_verify_roundtrip (H : HashModel) (config : SignatureConfig)
    (hAlg : config.Algorithm = "hmac-sha256") (hVB : config.ValidateBody = true)
    (hHne : ∀ k d, H.hmacSha256Hex k d ≠ "")
    (hHinj : ∀ d d', H.hmacSha256Hex config.SecretKey d = H.hmacSha256Hex config.SecretKey d'
      → d = d')
    (method path body : String) (params : List (String × String))
    (hnodup : (params.map Prod.fst).Nodup)
    (hres : ∀ p ∈ params, p.1 ≠ config.SignatureParam ∧ p.1 ≠ config.TimestampParam ∧
      p.1 ≠ config.NonceParam ∧ p.1 ≠ config.AppKeyParam)
    (t : Int) (ht0 : 0 ≤ t) (ht1 : t ≤ 2 ^ 63 - 1) (nonce : String) (hnonce : nonce ≠ "")
    (now : Int) (hfr1 : now - t ≤ config.Expiry) (hfr2 : t - now ≤ config.TimeTolerance)
    (store : NonceStore) (hstore : store nonce = none) :
    (APISignatureWithConfig H config now
        ⟨method, path, params,
          (GenerateSignature H method path params body config.SecretKey t nonce).1,
          (GenerateSignature H method path params body config.SecretKey t nonce).2.1,
          (GenerateSignature H method path params body config.SecretKey t nonce).2.2,
          "", body⟩ store).1 = SigOutcome.pass ∧
    (∀ body', body' ≠ body →
      (APISignatureWithConfig H config now
          ⟨method, path, params,
            (GenerateSignature H method path params body config.SecretKey t nonce).1,
            (GenerateSignature H method path params body config.SecretKey t nonce).2.1,
            (GenerateSignature H method path params body config.SecretKey t nonce).2.2,
            "", body'⟩ store).1 = SigOutcome.badSignature) ∧
    (∀ path', path' ≠ path →
      (APISignatureWithConfig H config now
          ⟨method, path', params,
            (GenerateSignature H method path params body config.SecretKey t nonce).1,
            (GenerateSignature H method path params body config.SecretKey t nonce).2.1,
            (GenerateSignature H method path params body config.SecretKey t nonce).2.2,
            "", body⟩ store).1 = SigOutcome.badSignature) ∧
    (∀ pre k v v' post, params = pre ++ (k, v) :: post → v' ≠ v →
      (APISignatureWithConfig H config now
          ⟨method, path, pre ++ (k, v') :: post,
            (GenerateSignature H method path params body config.SecretKey t nonce).1,
            (GenerateSignature H method path params body config.SecretKey t nonce).2.1,
            (GenerateSignature H method path params body config.SecretKey t nonce).2.2,
            "", body⟩ store).1 = SigOutcome.badSignature) := by
  set g1 := (GenerateSignature H method path params body config.SecretKey t nonce).1 with hg1def
  have hg2 : (GenerateSignature H method path params body config.SecretKey t nonce).2.1
      = goFormatInt t := rfl
  have hg3 : (GenerateSignature H method path params body config.SecretKey t nonce).2.2
      = nonce := rfl
  have hg1 : g1 = H.hmacSha256Hex config.SecretKey
      (genSignString method path params body (goFormatInt t) nonce) := by
    rw [hg1def]
    show calculateSignature H _ config.SecretKey "hmac-sha256" = _
    rw [calculateSignature_hmac]
  have hsigne : g1 ≠ "" := by rw [hg1]; exact hHne _ _
  simp only [hg2, hg3]
  have main : ∀ (path' : String) (qparams : List (String × String)) (body' : String),
      (qparams.map Prod.fst).Nodup →
      (∀ p ∈ qparams, p.1 ≠ config.SignatureParam ∧ p.1 ≠ config.TimestampParam ∧
        p.1 ≠ config.NonceParam ∧ p.1 ≠ config.AppKeyParam) →
      (APISignatureWithConfig H config now
          ⟨method, path', qparams, g1, goFormatInt t, nonce, "", body'⟩ store).1
        = (if g1 = H.hmacSha256Hex config.SecretKey
              (genSignString method path' qparams body' (goFormatInt t) nonce)
            then SigOutcome.pass else SigOutcome.badSignature) := by
    intro path' qparams body' hnd hrs
    set req : SigRequest := ⟨method, path', qparams, g1, goFormatInt t, nonce, "", body'⟩
      with hreq
    have hes : effSignature config req = g1 := effSignature_header config req hsigne
    have het : effTimestamp config req = goFormatInt t :=
      effTimestamp_header config req (goFormatInt_ne_empty t)
    have hen : effNonce config req = nonce := effNonce_header config req hnonce
    have hea : effAppKey config req = "" :=
      effAppKey_absent config req rfl (fun p hp => (hrs p hp).2.2.2)
    have hts : parseGoInt64 (effTimestamp config req) = some t := by
      rw [het]; exact parseGoInt64_goFormatInt t ht0 ht1
    have hcmp := APISignatureWithConfig_compare H config now t req store
      (by rw [hes]; exact hsigne) hts hfr1 hfr2 (by rw [hen]; exact hnonce)
      (by rw [hen]; exact hstore)
    rw [hcmp]
    show (if _ then SigOutcome.pass else SigOutcome.badSignature) = _
    rw [hes, het, hen, hea, hAlg, calculateSignature_hmac]
    have hbuild : buildSignString config req (goFormatInt t) nonce ""
        = genSignString method path' qparams body' (goFormatInt t) nonce := by
      unfold buildSignString genSignString
      rw [signParts_eq_genParts config method path' body' g1 (goFormatInt t) nonce qparams
        hnd hrs hVB hnonce]
    rw [hbuild]
  refine ⟨?_, ?_, ?_, ?_⟩
  · rw [main path params body hnodup hres]
    rw [if_pos hg1]
  · intro body' hb
    rw [main path params body' hnodup hres]
    rw [if_neg ?_]
    rw [hg1]
    intro hcol
    exact genSignString_body_ne method path params (goFormatInt t) nonce body body' hb
      (hHinj _ _ hcol).symm
  · intro path' hp
    rw [main path' params body hnodup hres]
    rw [if_neg ?_]
    rw [hg1]
    intro hcol
    exact genSignString_path_ne method path path' params body (goFormatInt t) nonce hp
      (hHinj _ _ hcol).symm
  · intro pre k v v' post hsplit hv
    have hnodup2 : ((pre ++ (k, v') :: post).map Prod.fst).Nodup := by
      have : (pre ++ (k, v') :: post).map Prod.fst = params.map Prod.fst := by
        rw [hsplit]; simp
      rw [this]; exact hnodup
    have hres2 : ∀ p ∈ pre ++ (k, v') :: post, p.1 ≠ config.SignatureParam ∧
        p.1 ≠ config.TimestampParam ∧ p.1 ≠ config.NonceParam ∧ p.1 ≠ config.AppKeyParam := by
      intro p hp
      rcases List.mem_append.mp hp with hpre | hrest
      · exact hres p (by rw [hsplit]; exact List.mem_append_left _ hpre)
      · rcases List.mem_cons.mp hrest with rfl | hpost
        · exact hres (k, v) (by rw [hsplit]; simp)
        · exact hres p (by rw [hsplit]; simp [hpost])
    rw [main path (pre ++ (k, v') :: post) body hnodup2 hres2]
    rw [if_neg ?_]
    rw [hg1, hsplit]
    intro hcol
    exact genSignString_query_ne method path body (goFormatInt t) nonce pre post k v v' hv
      (hsplit ▸ hnodup) (hHinj _ _ hcol).symm

/-- Concrete injective stand-in instantiating the abstract hash model at
concrete inputs (the digest embeds key and data verbatim). -/
def hashStandIn : HashModel :=
  ⟨fun k d => "h" ++ k ++ "#" ++ d, fun d => "m#" ++ d⟩

theorem hashStandIn_ne (k d : String) : hashStandIn.hmacSha256Hex k d ≠ "" := by
  intro h
  have hlen := congrArg String.length h
  have h1 : ("h" : String).length = 1 := rfl
  simp only [hashStandIn, String.length_append, h1] at hlen
  simp at hlen

theorem hashStandIn_inj (s d d' : String)
    (h : hashStandIn.hmacSha256Hex s d = hashStandIn.hmacSha256Hex s d') : d = d' :=
  string_append_cancel_left h

/-- Witness for C1: concrete round trip accepted, altered body rejected. -/
theorem sign_verify_roundtrip_witness :
    (APISignatureWithConfig hashStandIn DefaultSignatureConfig 150
        ⟨"GET", "/p", [("x", "1")],
          (GenerateSignature hashStandIn "GET" "/p" [("x", "1")] "B"
            DefaultSignatureConfig.SecretKey 100 "n1").1,
          (GenerateSignature hashStandIn "GET" "/p" [("x", "1")] "B"
            DefaultSignatureConfig.SecretKey 100 "n1").2.1,
          (GenerateSignature hashStandIn "GET" "/p" [("x", "1")] "B"
            DefaultSignatureConfig.SecretKey 100 "n1").2.2,
          "", "B"⟩ GoMap.empty).1 = SigOutcome.pass ∧
    (APISignatureWithConfig hashStandIn DefaultSignatureConfig 150
        ⟨"GET", "/p", [("x", "1")],
          (GenerateSignature hashStandIn "GET" "/p" [("x", "1")] "B"
            DefaultSignatureConfig.SecretKey 100 "n1").1,
          (GenerateSignature hashStandIn "GET" "/p" [("x", "1")] "B"
            DefaultSignatureConfig.SecretKey 100 "n1").2.1,
          (GenerateSignature hashStandIn "GET" "/p" [("x", "1")] "B"
            DefaultSignatureConfig.SecretKey 100 "n1").2.2,
          "", "B2"⟩ GoMap.empty).1 = SigOutcome.badSignature :=
  ⟨(sign_verify_roundtrip hashStandIn DefaultSignatureConfig rfl rfl hashStandIn_ne
      (hashStandIn_inj DefaultSignatureConfig.SecretKey) "GET" "/p" "B" [("x", "1")]
      (by decide) (by decide) 100 (by decide) (by decide) "n1" (by decide) 150 (by decide)
      (by decide) GoMap.empty rfl).1,
   (sign_verify_roundtrip hashStandIn DefaultSignatureConfig rfl rfl hashStandIn_ne
      (hashStandIn_inj DefaultSignatureConfig.SecretKey) "GET" "/p" "B" [("x", "1")]
      (by decide) (by decide) 100 (by decide) (by decide) "n1" (by decide) 150 (by decide)
      (by decide) GoMap.empty rfl).2.1 "B2" (by decide)⟩

/-- Counterexample to C1 as stated: with the query-parameter map
`[("app_key", "x")]` — `app_key` is one of the signature parameter names,
which the verifier strips from the canonical string while the client signs
it — the round trip under identical inputs is REJECTED, not accepted
(the claim quantifies over every query-parameter map). -/
theorem sign_verify_roundtrip_cex :
    (APISignatureWithConfig hashStandIn DefaultSignatureConfig 100
        ⟨"GET", "/p", [("app_key", "x")],
          (GenerateSignature hashStandIn "GET" "/p" [("app_key", "x")] ""
            DefaultSignatureConfig.SecretKey 100 "n1").1,
          (GenerateSignature hashStandIn "GET" "/p" [("app_key", "x")] ""
            DefaultSignatureConfig.SecretKey 100 "n1").2.1,
          (GenerateSignature hashStandIn "GET" "/p" [("app_key", "x")] ""
            DefaultSignatureConfig.SecretKey 100 "n1").2.2,
          "", ""⟩ GoMap.empty).1 = SigOutcome.badSignature := by
  decide

theorem APISignatureWithConfig_missing (H : HashModel) (config : SignatureConfig) (now : Int)
    (req : SigRequest) (store : NonceStore)
    (h : effSignature config req = "" ∨ effTimestamp config req = "") :
    APISignatureWithConfig H config now req store = (SigOutcome.missingParams, store) := by
  simp only [APISignatureWithConfig]
  rw [if_pos h]

theorem APISignatureWithConfig_invalidTs (H : HashModel) (config : SignatureConfig) (now : Int)
    (req : SigRequest) (store : NonceStore)
    (hne : ¬(effSignature config req = "" ∨ effTimestamp config req = ""))
    (hparse : parseGoInt64 (effTimestamp config req) = none) :
    APISignatureWithConfig H config now req store = (SigOutcome.invalidTimestamp, store) := by
  simp only [APISignatureWithConfig]
  rw [if_neg hne]
  split
  · rfl
  · rename_i ts heq
    rw [hparse] at heq
    exact Option.noConfusion heq

theorem APISignatureWithConfig_expired (H : HashModel) (config : SignatureConfig)
    (now ts : Int) (req : SigRequest) (store : NonceStore)
    (hne : ¬(effSignature config req = "" ∨ effTimestamp config req = ""))
    (hts : parseGoInt64 (effTimestamp config req) = some ts)
    (hexp : config.Expiry < now - ts ∨ config.TimeTolerance < ts - now) :
    APISignatureWithConfig H config now req store = (SigOutcome.expired, store) := by
  simp only [APISignatureWithConfig]
  rw [if_neg hne]
  split
  · rename_i heq
    rw [hts] at heq
    exact Option.noConfusion heq
  · rename_i ts' heq
    rw [hts] at heq
    obtain rfl : ts' = ts := by injection heq with h; exact h.symm
    rw [if_pos hexp]

theorem APISignatureWithConfig_duplicate (H : HashModel) (config : SignatureConfig)
    (now ts : Int) (req : SigRequest) (store : NonceStore)
    (hsig : effSignature config req ≠ "")
    (hts : parseGoInt64 (effTimestamp config req) = some ts)
    (hf1 : now - ts ≤ config.Expiry) (hf2 : ts - now ≤ config.TimeTolerance)
    (hnonce : effNonce config req ≠ "")
    (hdup : (store (effNonce config req)).isSome = true) :
    APISignatureWithConfig H config now req store = (SigOutcome.duplicateNonce, store) := by
  have htsne : effTimestamp config req ≠ "" := by
    intro h
    rw [h, parseGoInt64_empty] at hts
    exact Option.noConfusion hts
  simp only [APISignatureWithConfig]
  rw [if_neg (by push_neg; exact ⟨hsig, htsne⟩)]
  split
  · rename_i heq
    rw [hts] at heq
    exact Option.noConfusion heq
  · rename_i ts' heq
    rw [hts] at heq
    obtain rfl : ts' = ts := by injection heq with h; exact h.symm
    rw [if_neg (by push_neg; constructor <;> omega)]
    rw [if_pos (by simp [bne_iff_ne, hnonce, hdup])]

theorem cleanupNonce_keeps (expiry tclean : Int) (store : NonceStore) (n : String) (t : Int)
    (hs : store n = some t) (h : tclean - t ≤ expiry) :
    cleanupNonce expiry tclean store n = some t := by
  unfold cleanupNonce
  rw [hs]
  show (if expiry < tclean - t then none else some t) = some t
  rw [if_neg (by omega)]

/-- **C4** (`APISignatureWithConfig`, signature.go lines 122-134). A first
verification carrying a non-empty fresh nonce that passes the timestamp
check records that nonce in the ledger; a second verification presenting the
same nonce within the signature expiry window — even after the cleanup sweep
has run at a time within the window — is rejected as a duplicate request. -/
theorem nonce_replay_rejected (H : HashModel) (config : SignatureConfig)
    (now₁ now₂ tclean ts₁ ts₂ : Int) (req₁ req₂ : SigRequest) (store : NonceStore)
    (hnonce : effNonce config req₁ ≠ "")
    (hsame : effNonce config req₂ = effNonce config req₁)
    (h1sig : effSignature config req₁ ≠ "")
    (h1ts : parseGoInt64 (effTimestamp config req₁) = some ts₁)
    (h1f1 : now₁ - ts₁ ≤ config.Expiry) (h1f2 : ts₁ - now₁ ≤ config.TimeTolerance)
    (h1store : store (effNonce config req₁) = none)
    (hclean : tclean - now₁ ≤ config.Expiry)
    (h2sig : effSignature config req₂ ≠ "")
    (h2ts : parseGoInt64 (effTimestamp config req₂) = some ts₂)
    (h2f1 : now₂ - ts₂ ≤ config.Expiry) (h2f2 : ts₂ - now₂ ≤ config.TimeTolerance) :
    (APISignatureWithConfig H config now₂ req₂
        (cleanupNonce config.Expiry tclean
          (APISignatureWithConfig H config now₁ req₁ store).2)).1
      = SigOutcome.duplicateNonce := by
  have h1 := APISignatureWithConfig_compare H config now₁ ts₁ req₁ store h1sig h1ts h1f1 h1f2
    hnonce h1store
  have hstore1 : (APISignatureWithConfig H config now₁ req₁ store).2
      = store.insert (effNonce config req₁) now₁ := by rw [h1]
  rw [hstore1]
  have hkeep : cleanupNonce config.Expiry tclean
      (store.insert (effNonce config req₁) now₁) (effNonce config req₂) = some now₁ := by
    rw [hsame]
    exact cleanupNonce_keeps config.Expiry tclean _ _ now₁ (GoMap.insert_self _ _ _) hclean
  have hdup := APISignatureWithConfig_duplicate H config now₂ ts₂ req₂
    (cleanupNonce config.Expiry tclean (store.insert (effNonce config req₁) now₁))
    h2sig h2ts h2f1 h2f2 (by rw [hsame]; exact hnonce) (by rw [hkeep]; rfl)
  rw [hdup]

/-- A concrete request frame: headers `X-Timestamp = "100"`, `X-Nonce = "n1"`,
no app key, query `x=1`, body `"B"`, with a chosen `X-Signature`. -/
def demoBase (sig : String) : SigRequest := ⟨"GET", "/p", [("x", "1")], sig, "100", "n1", "", "B"⟩

/-- The valid signature for `demoBase` under the stand-in hash model and the
default config (the canonical string does not involve the signature header). -/
def demoValidSig : String :=
  calculateSignature hashStandIn
    (buildSignString DefaultSignatureConfig (demoBase "") "100" "n1" "")
    DefaultSignatureConfig.SecretKey DefaultSignatureConfig.Algorithm

/-- A concrete correctly signed request. -/
def demoValidReq : SigRequest := demoBase demoValidSig

/-- Witness for C4: the same nonce `n1` presented twice (valid request both
times), cleanup sweep at 200, second verification at 250: duplicate. -/
theorem nonce_replay_rejected_witness :
    (APISignatureWithConfig hashStandIn DefaultSignatureConfig 250 demoValidReq
        (cleanupNonce DefaultSignatureConfig.Expiry 200
          (APISignatureWithConfig hashStandIn DefaultSignatureConfig 150 demoValidReq
            GoMap.empty).2)).1
      = SigOutcome.duplicateNonce :=
  nonce_replay_rejected hashStandIn DefaultSignatureConfig 150 250 200 100 100
    demoValidReq demoValidReq GoMap.empty (by decide) (by decide) (by decide) (by decide)
    (by decide) (by decide) rfl (by decide) (by decide) (by decide) (by decide) (by decide)

/-- **C5** (`APISignatureWithConfig`, signature.go lines 97-119). A request
whose timestamp does not parse as a Unix epoch integer is rejected with
status 400; a parsed timestamp with `now - ts > Expiry` or
`ts - now > TimeTolerance` is rejected as expired; and a timestamp older
than `Expiry` is rejected (status 400) even when the supplied signature
equals the expected signature of the request. -/
theorem timestamp_validation (H : HashModel) (config : SignatureConfig) (now : Int)
    (req : SigRequest) (store : NonceStore) :
    (parseGoInt64 (effTimestamp config req) = none →
      ((APISignatureWithConfig H config now req store).1).status = some 400) ∧
    (∀ ts : Int, parseGoInt64 (effTimestamp config req) = some ts →
      effSignature config req ≠ "" →
      (config.Expiry < now - ts ∨ config.TimeTolerance < ts - now) →
      (APISignatureWithConfig H config now req store).1 = SigOutcome.expired) ∧
    (∀ ts : Int, parseGoInt64 (effTimestamp config req) = some ts →
      effSignature config req =
        calculateSignature H
          (buildSignString config req (effTimestamp config req) (effNonce config req)
            (effAppKey config req)) config.SecretKey config.Algorithm →
      config.Expiry < now - ts →
      ((APISignatureWithConfig H config now req store).1).status = some 400) := by
  refine ⟨?_, ?_, ?_⟩
  · intro hparse
    by_cases hmiss : effSignature config req = "" ∨ effTimestamp config req = ""
    · rw [APISignatureWithConfig_missing H config now req store hmiss]; rfl
    · rw [APISignatureWithConfig_invalidTs H config now req store hmiss hparse]; rfl
  · intro ts hts hsig hexp
    have htsne : effTimestamp config req ≠ "" := by
      intro h
      rw [h, parseGoInt64_empty] at hts
      exact Option.noConfusion hts
    rw [APISignatureWithConfig_expired H config now ts req store
      (by push_neg; exact ⟨hsig, htsne⟩) hts hexp]
  · intro ts hts _ hold
    by_cases hmiss : effSignature config req = "" ∨ effTimestamp config req = ""
    · rw [APISignatureWithConfig_missing H config now req store hmiss]; rfl
    · rw [APISignatureWithConfig_expired H config now ts req store hmiss hts (Or.inl hold)]
      rfl

/-- Witness for C5: unparsable timestamp rejected 400; a 900-second-old
timestamp rejected as expired even on a correctly signed request. -/
theorem timestamp_validation_witness :
    ((APISignatureWithConfig hashStandIn DefaultSignatureConfig 150
        ⟨"GET", "/p", [], "s", "abc", "", "", ""⟩ GoMap.empty).1).status = some 400 ∧
    (APISignatureWithConfig hashStandIn DefaultSignatureConfig 1000 demoValidReq
        GoMap.empty).1 = SigOutcome.expired ∧
    ((APISignatureWithConfig hashStandIn DefaultSignatureConfig 1000 demoValidReq
        GoMap.empty).1).status = some 400 :=
  ⟨(timestamp_validation hashStandIn DefaultSignatureConfig 150
      ⟨"GET", "/p", [], "s", "abc", "", "", ""⟩ GoMap.empty).1 (by decide),
   (timestamp_validation hashStandIn DefaultSignatureConfig 1000 demoValidReq
      GoMap.empty).2.1 100 (by decide) (by decide) (by decide),
   (timestamp_validation hashStandIn DefaultSignatureConfig 1000 demoValidReq
      GoMap.empty).2.2 100 (by decide) (by decide) (by decide)⟩

/-- **C9** (`APISignatureWithConfig`, signature.go lines 122-150). A fresh
non-empty nonce is recorded in the ledger before the signature comparison,
so a verification failing with a signature mismatch still consumes it: the
resulting ledger maps the nonce to the verification time, and a later
request reusing that nonce — even one bearing a correct signature — is
rejected as a duplicate. -/
theorem nonce_consumed_on_signature_mismatch (H : HashModel) (config : SignatureConfig)
    (now₁ now₂ ts₁ ts₂ : Int) (req₁ req₂ : SigRequest) (store : NonceStore)
    (hnonce : effNonce config req₁ ≠ "")
    (h1sig : effSignature config req₁ ≠ "")
    (h1ts : parseGoInt64 (effTimestamp config req₁) = some ts₁)
    (h1f1 : now₁ - ts₁ ≤ config.Expiry) (h1f2 : ts₁ - now₁ ≤ config.TimeTolerance)
    (h1store : store (effNonce config req₁) = none)
    (hfail : (APISignatureWithConfig H config now₁ req₁ store).1 = SigOutcome.badSignature)
    (hsame : effNonce config req₂ = effNonce config req₁)
    (h2sig : effSignature config req₂ ≠ "")
    (h2ts : parseGoInt64 (effTimestamp config req₂) = some ts₂)
    (h2f1 : now₂ - ts₂ ≤ config.Expiry) (h2f2 : ts₂ - now₂ ≤ config.TimeTolerance) :
    (APISignatureWithConfig H config now₁ req₁ store).2 (effNonce config req₁) = some now₁ ∧
    (APISignatureWithConfig H config now₂ req₂
        (APISignatureWithConfig H config now₁ req₁ store).2).1
      = SigOutcome.duplicateNonce := by
  have h1 := APISignatureWithConfig_compare H config now₁ ts₁ req₁ store h1sig h1ts h1f1 h1f2
    hnonce h1store
  have hstore1 : (APISignatureWithConfig H config now₁ req₁ store).2
      = store.insert (effNonce config req₁) now₁ := by rw [h1]
  refine ⟨?_, ?_⟩
  · rw [hstore1]
    exact GoMap.insert_self _ _ _
  · rw [hstore1]
    have hdup := APISignatureWithConfig_duplicate H config now₂ ts₂ req₂
      (store.insert (effNonce config req₁) now₁) h2sig h2ts h2f1 h2f2
      (by rw [hsame]; exact hnonce)
      (by rw [hsame, GoMap.insert_self]; rfl)
    rw [hdup]

/-- Witness for C9: first request with wrong signature `"deadbeef"` consumes
nonce `n1`; the correctly signed second request is rejected as duplicate. -/
theorem nonce_consumed_on_signature_mismatch_witness :
    (APISignatureWithConfig hashStandIn DefaultSignatureConfig 150 (demoBase "deadbeef")
        GoMap.empty).2 (effNonce DefaultSignatureConfig (demoBase "deadbeef")) = some 150 ∧
    (APISignatureWithConfig hashStandIn DefaultSignatureConfig 250 demoValidReq
        (APISignatureWithConfig hashStandIn DefaultSignatureConfig 150 (demoBase "deadbeef")
          GoMap.empty).2).1 = SigOutcome.duplicateNonce :=
  nonce_consumed_on_signature_mismatch hashStandIn DefaultSignatureConfig 150 250 100 100
    (demoBase "deadbeef") demoValidReq GoMap.empty (by decide) (by decide) (by decide)
    (by decide) (by decide) rfl (by decide) (by decide) (by decide) (by decide) (by decide)
    (by decide)

/-- The duplicate check on the nonce ledger (signature.go line 123):
`_, exists := nonceStore[nonce]`. -/
def nonceCheck (store : NonceStore) (nonce : String) : Bool := (store nonce).isSome

/-- The ledger insertion (signature.go line 131): `nonceStore[nonce] = now`. -/
def nonceRecord (store : NonceStore) (nonce : String) (now : Int) : NonceStore :=
  store.insert nonce now

/-- The check-and-insert sequence of two concurrent verifications of the same
nonce, interleaved as check₁, check₂, insert₁, insert₂. The code guards
`nonceStore` with NO lock (`nonceStore` is a plain package-level map, and
`cleanupNonce` additionally mutates it from a separate goroutine), so this
interleaving is possible; each component of the first result is `true` when
the corresponding verification passes its duplicate check and proceeds. -/
def nonceRaceBothCheckFirst (store : NonceStore) (nonce : String) (now₁ now₂ : Int) :
    (Bool × Bool) × NonceStore :=
  let dup1 := nonceCheck store nonce
  let dup2 := nonceCheck store nonce
  let s1 := nonceRecord store nonce now₁
  let s2 := nonceRecord s1 nonce now₂
  ((!dup1, !dup2), s2)

/-- **C8** (nonce ledger locking contract, signature.go lines 55-56, 122-134,
230-238): the contract FAILS on the code. `nonceStore` is accessed without
any lock, so the two duplicate checks may both run against the state
preceding both insertions; in that interleaving both verifications of the
same fresh nonce pass the duplicate check — as confirmed by a full
verification run against the pre-insertion ledger accepting — and the nonce
is consumed twice. -/
theorem nonce_ledger_unlocked_race :
    (nonceRaceBothCheckFirst GoMap.empty "n1" 150 151).1 = (true, true) ∧
    (APISignatureWithConfig hashStandIn DefaultSignatureConfig 150 demoValidReq
        GoMap.empty).1 = SigOutcome.pass ∧
    (APISignatureWithConfig hashStandIn DefaultSignatureConfig 151 demoValidReq
        GoMap.empty).1 = SigOutcome.pass := by
  refine ⟨rfl, by decide, by decide⟩

/-! ## IP admission filter (`IPFilter`, unnamed middleware file)

`net.ParseIP` is external; it is modelled as an explicit dotted-quad IPv4
parser (mirroring Go's rules: four decimal fields, each 0-255, digits only,
no leading zeros). Addresses are `Nat` values below `2^32`. The IPv6 private
blocks `::1/128` and `fc00::/7` of `isPrivateIP` cannot contain an IPv4
address and so do not appear in the IPv4 model. -/

/-- Split a character list on a separator (model of splitting the address
at the dots). -/
def splitOnChar (sep : Char) : List Char → List (List Char)
  | [] => [[]]
  | c :: rest =>
    if c = sep then [] :: splitOnChar sep rest
    else
      match splitOnChar sep rest with
      | [] => [[c]]
      | g :: gs => (c :: g) :: gs

/-- One dotted-quad field: non-empty, all digits, no leading zero, ≤ 255. -/
def parseIPv4Field : List Char → Option Nat
  | [] => none
  | c :: rest =>
    if (c :: rest).all Char.isDigit then
      if c = '0' ∧ rest ≠ [] then none
      else
        let v := decDigitsToNat (c :: rest)
        if v ≤ 255 then some v else none
    else none

/-- Model of `net.ParseIP` restricted to IPv4 dotted-quad addresses. -/
def parseIPv4 (s : String) : Option Nat :=
  match splitOnChar '.' s.data with
  | [a, b, c, d] =>
    match parseIPv4Field a, parseIPv4Field b, parseIPv4Field c, parseIPv4Field d with
    | some x, some y, some z, some w => some (((x * 256 + y) * 256 + z) * 256 + w)
    | _, _, _, _ => none
  | _ => none

/-- A parsed CIDR block (`*net.IPNet`): masked base address and prefix length. -/
structure IPNet where
  base : Nat
  maskBits : Nat

/-- `ipNet.Contains(ip)`: the top `maskBits` bits agree. -/
def IPNet.contains (nt : IPNet) (ip : Nat) : Bool :=
  ip >>> (32 - nt.maskBits) == nt.base >>> (32 - nt.maskBits)

/-- The IPv4 private blocks of `isPrivateIP`: 10.0.0.0/8, 172.16.0.0/12,
192.168.0.0/16, 127.0.0.0/8. -/
def privateBlocks : List IPNet :=
  [⟨10 * 2 ^ 24, 8⟩, ⟨172 * 2 ^ 24 + 16 * 2 ^ 16, 12⟩,
   ⟨192 * 2 ^ 24 + 168 * 2 ^ 16, 16⟩, ⟨127 * 2 ^ 24, 8⟩]

/-- `isPrivateIP` (IP filter file, lines 216-234). -/
def isPrivateIP (ip : Nat) : Bool := privateBlocks.any (fun nt => nt.contains ip)

/-- The `IPFilter` state after `NewIPFilter`: exact-match entries (raw
strings) and parsed CIDR blocks for each list, plus the config flags the
lookup reads. -/
structure IPFilter where
  whitelistMode : Bool
  allowPrivate : Bool
  whitelist : List String
  blacklist : List String
  whiteNets : List IPNet
  blackNets : List IPNet

/-- `IPFilter.IsAllowed` (IP filter file, lines 131-169). The exact-match
lookup `f.whitelist[ip]` is on the raw input string. -/
def IPFilter.IsAllowed (f : IPFilter) (ip : String) : Bool :=
  match parseIPv4 ip with
  | none => false
  | some parsed =>
    if f.whitelistMode then
      if f.whitelist.contains ip then true
      else if f.whiteNets.any (fun nt => nt.contains parsed) then true
      else if f.allowPrivate && isPrivateIP parsed then true
      else false
    else
      if f.blacklist.contains ip then false
      else if f.blackNets.any (fun nt => nt.contains parsed) then false
      else true

theorem IsAllowed_parsed (f : IPFilter) (ip : String) (parsed : Nat)
    (hp : parseIPv4 ip = some parsed) :
    f.IsAllowed ip =
      (if f.whitelistMode then
        (if f.whitelist.contains ip then true
         else if f.whiteNets.any (fun nt => nt.contains parsed) then true
         else if f.allowPrivate && isPrivateIP parsed then true
         else false)
       else
        (if f.blacklist.contains ip then false
         else if f.blackNets.any (fun nt => nt.contains parsed) then false
         else true)) := by
  unfold IPFilter.IsAllowed
  rw [hp]

/-- **C7** (`IPFilter.IsAllowed`, allow-list mode). For a parsable address:
an exact whitelist match passes; an address inside a whitelisted CIDR block
passes; a private address passes when `AllowPrivate` is on; and an address
matching no allow entry is rejected whenever `AllowPrivate` is off or the
address is not private. -/
theorem ip_filter_whitelist (f : IPFilter) (hmode : f.whitelistMode = true) (ip : String)
    (parsed : Nat) (hp : parseIPv4 ip = some parsed) :
    (f.whitelist.contains ip = true → f.IsAllowed ip = true) ∧
    (f.whiteNets.any (fun nt => nt.contains parsed) = true → f.IsAllowed ip = true) ∧
    (f.allowPrivate = true → isPrivateIP parsed = true → f.IsAllowed ip = true) ∧
    (f.whitelist.contains ip = false →
      f.whiteNets.any (fun nt => nt.contains parsed) = false →
      (f.allowPrivate = false ∨ isPrivateIP parsed = false) →
      f.IsAllowed ip = false) := by
  rw [IsAllowed_parsed f ip parsed hp, hmode]
  rw [if_pos rfl]
  refine ⟨?_, ?_, ?_, ?_⟩
  · intro h
    rw [if_pos h]
  · intro h
    by_cases hc : f.whitelist.contains ip = true
    · rw [if_pos hc]
    · rw [if_neg hc, if_pos h]
  · intro ha hpriv
    by_cases hc : f.whitelist.contains ip = true
    · rw [if_pos hc]
    · by_cases hn : (f.whiteNets.any fun nt => nt.contains parsed) = true
      · rw [if_neg hc, if_pos hn]
      · rw [if_neg hc, if_neg hn, if_pos (by rw [ha, hpriv]; rfl)]
  · intro h1 h2 h3
    rw [if_neg (by rw [h1]; simp), if_neg (by rw [h2]; simp),
      if_neg (by rcases h3 with h3 | h3 <;> simp [h3])]

/-- Witness for C7 with whitelist `9.9.9.9`, CIDR 10.0.0.0/8, private-allow
off (and a second filter with private-allow on for the private case). -/
theorem ip_filter_whitelist_witness :
    IPFilter.IsAllowed ⟨true, false, ["9.9.9.9"], [], [⟨10 * 2 ^ 24, 8⟩], []⟩ "9.9.9.9"
      = true ∧
    IPFilter.IsAllowed ⟨true, false, ["9.9.9.9"], [], [⟨10 * 2 ^ 24, 8⟩], []⟩ "10.0.0.5"
      = true ∧
    IPFilter.IsAllowed ⟨true, true, [], [], [], []⟩ "127.0.0.1" = true ∧
    IPFilter.IsAllowed ⟨true, false, ["9.9.9.9"], [], [⟨10 * 2 ^ 24, 8⟩], []⟩ "11.0.0.1"
      = false :=
  ⟨(ip_filter_whitelist ⟨true, false, ["9.9.9.9"], [], [⟨10 * 2 ^ 24, 8⟩], []⟩ rfl
      "9.9.9.9" 151587081 (by decide)).1 (by decide),
   (ip_filter_whitelist ⟨true, false, ["9.9.9.9"], [], [⟨10 * 2 ^ 24, 8⟩], []⟩ rfl
      "10.0.0.5" 167772165 (by decide)).2.1 (by decide),
   (ip_filter_whitelist ⟨true, true, [], [], [], []⟩ rfl
      "127.0.0.1" 2130706433 (by decide)).2.2.1 rfl (by decide),
   (ip_filter_whitelist ⟨true, false, ["9.9.9.9"], [], [⟨10 * 2 ^ 24, 8⟩], []⟩ rfl
      "11.0.0.1" 184549377 (by decide)).2.2.2 (by decide) (by decide) (Or.inl rfl)⟩

/-- **C10** (`IPFilter.IsAllowed`, lines 131-138). Any argument string that
does not parse as an IP address yields `false`, in both modes — in
particular in deny-list mode, whose default is allow. -/
theorem ip_filter_unparsable (f : IPFilter) (ip : String) (hp : parseIPv4 ip = none) :
    f.IsAllowed ip = false := by
  unfold IPFilter.IsAllowed
  rw [hp]

/-- Witness for C10: `"not-an-ip"` rejected in deny-list mode and in
allow-list mode. -/
theorem ip_filter_unparsable_witness :
    IPFilter.IsAllowed ⟨false, true, [], [], [], []⟩ "not-an-ip" = false ∧
    IPFilter.IsAllowed ⟨true, true, [], [], [], []⟩ "not-an-ip" = false :=
  ⟨ip_filter_unparsable ⟨false, true, [], [], [], []⟩ "not-an-ip" (by decide),
   ip_filter_unparsable ⟨true, true, [], [], [], []⟩ "not-an-ip" (by decide)⟩

/-! ## Audit-log redaction (`maskSensitiveData`, audit middleware file)

`json.Unmarshal` / `json.Marshal` are external; they are modelled as an
abstract decoder `String → Option Json` (`none` = Unmarshal error, which
includes any body that is not a JSON object) and encoder `Json → String`.
JSON values are an explicit mutual inductive; Go's
`map[string]interface{}` becomes an entry list. -/

mutual
inductive Json where
  | null : Json
  | bool (b : Bool) : Json
  | num (n : Int) : Json
  | str (s : String) : Json
  | arr (elems : JsonList) : Json
  | obj (entries : JsonObj) : Json
inductive JsonList where
  | nil : JsonList
  | cons (hd : Json) (tl : JsonList) : JsonList
inductive JsonObj where
  | nil : JsonObj
  | cons (key : String) (val : Json) (tl : JsonObj) : JsonObj
end

/-! `maskMapField` (audit file lines 374-382), value level: in an object,
an entry whose key equals the field is replaced by the mask token; an entry
whose value is a nested object is masked recursively; everything else
(including arrays) is untouched. `maskMapFieldJ` is the identity on
non-objects. -/
mutual
def maskMapFieldJ (field : String) : Json → Json
  | .obj entries => .obj (maskMapFieldO field entries)
  | v => v
def maskMapFieldO (field : String) : JsonObj → JsonObj
  | .nil => .nil
  | .cons k v tl =>
    if k = field then .cons k (.str "***MASKED***") (maskMapFieldO field tl)
    else .cons k (maskMapFieldJ field v) (maskMapFieldO field tl)
end

/-- `maskJSONField` (audit file lines 357-371): decode, mask one field,
re-encode; a body that does not decode is returned unchanged. -/
def maskJSONField (dec : String → Option Json) (enc : Json → String)
    (data field : String) : String :=
  match dec data with
  | none => data
  | some v => enc (maskMapFieldJ field v)

/-- `maskSensitiveData` (audit file lines 348-354): one `maskJSONField` pass
per configured sensitive field. -/
def maskSensitiveData (dec : String → Option Json) (enc : Json → String)
    (data : String) (sensitiveFields : List String) : String :=
  sensitiveFields.foldl (fun d field => maskJSONField dec enc d field) data

/-! Specification-side masking, following the spec's wording directly: the
value of every entry whose key matches a configured sensitive-field name is
replaced by the fixed mask token, recursively through nested objects at any
depth, leaving the rest of the structure intact. -/
mutual
def maskSpecJ (fields : List String) : Json → Json
  | .obj entries => .obj (maskSpecO fields entries)
  | v => v
def maskSpecO (fields : List String) : JsonObj → JsonObj
  | .nil => .nil
  | .cons k v tl =>
    if fields.contains k then .cons k (.str "***MASKED***") (maskSpecO fields tl)
    else .cons k (maskSpecJ fields v) (maskSpecO fields tl)
end

/-- The value-level effect of the per-field passes of `maskSensitiveData`. -/
def maskFoldJ (fields : List String) (v : Json) : Json :=
  fields.foldl (fun a f => maskMapFieldJ f a) v

/-- The value after the first `n` per-field passes (the intermediate values
of the decode/encode chain). -/
def maskIter (fields : List String) (v : Json) (n : Nat) : Json :=
  maskFoldJ (fields.take n) v

mutual
theorem maskSpec_nil_J : ∀ v : Json, maskSpecJ [] v = v
  | .null => rfl
  | .bool _ => rfl
  | .num _ => rfl
  | .str _ => rfl
  | .arr _ => rfl
  | .obj o => congrArg Json.obj (maskSpec_nil_O o)
theorem maskSpec_nil_O : ∀ o : JsonObj, maskSpecO [] o = o
  | .nil => rfl
  | .cons k v tl => by
    rw [maskSpecO]
    rw [if_neg (by simp)]
    rw [maskSpec_nil_J v, maskSpec_nil_O tl]
end

mutual
theorem maskSpec_cons_J (f : String) (fs : List String) :
    ∀ v : Json, maskSpecJ fs (maskMapFieldJ f v) = maskSpecJ (f :: fs) v
  | .null => rfl
  | .bool _ => rfl
  | .num _ => rfl
  | .str _ => rfl
  | .arr _ => rfl
  | .obj o => congrArg Json.obj (maskSpec_cons_O f fs o)
theorem maskSpec_cons_O (f : String) (fs : List String) :
    ∀ o : JsonObj, maskSpecO fs (maskMapFieldO f o) = maskSpecO (f :: fs) o
  | .nil => rfl
  | .cons k v tl => by
    by_cases hk : k = f
    · subst hk
      have hck : ((k :: fs).contains k) = true := by simp [List.contains_cons]
      by_cases hc : fs.contains k = true
      · rw [maskMapFieldO, if_pos rfl, maskSpecO, if_pos hc, maskSpecO, if_pos hck,
          maskSpec_cons_O k fs tl]
      · rw [maskMapFieldO, if_pos rfl, maskSpecO, if_neg hc, maskSpecO, if_pos hck,
          maskSpec_cons_O k fs tl]
        rfl
    · rw [maskMapFieldO, if_neg hk]
      rw [maskSpecO, maskSpecO]
      have hcc : ((f :: fs).contains k) = fs.contains k := by
        simp only [List.contains_cons]
        rw [beq_false_of_ne hk]
        simp
      rw [hcc]
      by_cases hc : fs.contains k = true
      · rw [if_pos hc, if_pos hc]
        rw [maskSpec_cons_O f fs tl]
      · rw [if_neg hc, if_neg hc]
        rw [maskSpec_cons_J f fs v, maskSpec_cons_O f fs tl]
end

theorem maskFold_eq_spec (fields : List String) :
    ∀ v : Json, maskFoldJ fields v = maskSpecJ fields v := by
  induction fields with
  | nil => intro v; exact (maskSpec_nil_J v).symm
  | cons f fs ih =>
    intro v
    show maskFoldJ fs (maskMapFieldJ f v) = _
    rw [ih (maskMapFieldJ f v), maskSpec_cons_J f fs v]

theorem maskSensitiveData_of_undecodable (dec : String → Option Json) (enc : Json → String)
    (data : String) (h : dec data = none) :
    ∀ fields : List String, maskSensitiveData dec enc data fields = data := by
  intro fields
  induction fields with
  | nil => rfl
  | cons f fs ih =>
    have h1 : maskJSONField dec enc data f = data := by
      unfold maskJSONField
      rw [h]
    show List.foldl _ (maskJSONField dec enc data f) fs = data
    rw [h1]
    exact ih

theorem maskSensitiveData_decoded (dec : String → Option Json) (enc : Json → String) :
    ∀ (fields : List String) (data : String) (v : Json), fields ≠ [] → dec data = some v →
      (∀ n : Nat, 1 ≤ n → n < fields.length →
        dec (enc (maskIter fields v n)) = some (maskIter fields v n)) →
      maskSensitiveData dec enc data fields = enc (maskFoldJ fields v) := by
  intro fields
  induction fields with
  | nil => intro data v h; exact absurd rfl h
  | cons f fs ih =>
    intro data v _ hdec hrt
    have h1 : maskJSONField dec enc data f = enc (maskMapFieldJ f v) := by
      unfold maskJSONField
      rw [hdec]
    cases fs with
    | nil =>
      show maskJSONField dec enc data f = _
      rw [h1]
      rfl
    | cons f2 fs2 =>
      have hdec1 : dec (enc (maskMapFieldJ f v)) = some (maskMapFieldJ f v) := by
        have h := hrt 1 (by omega) (by simp)
        simpa [maskIter, maskFoldJ] using h
      have hrt' : ∀ n : Nat, 1 ≤ n → n < (f2 :: fs2).length →
          dec (enc (maskIter (f2 :: fs2) (maskMapFieldJ f v) n))
            = some (maskIter (f2 :: fs2) (maskMapFieldJ f v) n) := by
        intro n hn1 hn2
        have hsh : maskIter (f :: f2 :: fs2) v (n + 1)
            = maskIter (f2 :: fs2) (maskMapFieldJ f v) n := by
          simp [maskIter, maskFoldJ, List.take_succ_cons]
        have h := hrt (n + 1) (by omega) (by simp at hn2 ⊢; omega)
        rw [hsh] at h
        exact h
      show List.foldl _ (maskJSONField dec enc data f) (f2 :: fs2) = _
      rw [h1]
      exact ih (enc (maskMapFieldJ f v)) (maskMapFieldJ f v) (by simp) hdec1 hrt'

/-- **C6** (`maskSensitiveData`, audit file lines 348-382). A body the
decoder rejects is returned unchanged (logged verbatim); a body decoding to
a value `v` is re-encoded with every sensitive field masked: the result is
exactly the encoding of the specification-side masking `maskSpecJ`, which
replaces the value of every entry whose key is a configured sensitive field
with the mask token at any nesting depth of nested objects and leaves the
rest intact. The chain hypothesis states that re-decoding the intermediate
encodings recovers the intermediate values (JSON encode/decode round-trip). -/
theorem audit_redaction (dec : String → Option Json) (enc : Json → String)
    (fields : List String) (data : String) :
    (dec data = none → maskSensitiveData dec enc data fields = data) ∧
    (∀ v : Json, fields ≠ [] → dec data = some v →
      (∀ n : Nat, 1 ≤ n → n < fields.length →
        dec (enc (maskIter fields v n)) = some (maskIter fields v n)) →
      maskSensitiveData dec enc data fields = enc (maskSpecJ fields v)) := by
  constructor
  · intro h
    exact maskSensitiveData_of_undecodable dec enc data h fields
  · intro v hne hdec hrt
    rw [maskSensitiveData_decoded dec enc fields data v hne hdec hrt]
    rw [maskFold_eq_spec]

/-- Witness for C6: the body `{"password":"secret123"}` (as the abstract
decoder's image `D0`) has the password value replaced by the mask token; an
undecodable body is unchanged. -/
theorem audit_redaction_witness :
    maskSensitiveData
        (fun s => if s = "D0"
          then some (Json.obj (.cons "password" (.str "secret123") .nil)) else none)
        (fun _ => "E") "bad" ["password"] = "bad" ∧
    maskSensitiveData
        (fun s => if s = "D0"
          then some (Json.obj (.cons "password" (.str "secret123") .nil)) else none)
        (fun _ => "E") "D0" ["password"]
      = (fun _ : Json => "E")
          (maskSpecJ ["password"] (Json.obj (.cons "password" (.str "secret123") .nil))) :=
  ⟨(audit_redaction
      (fun s => if s = "D0"
        then some (Json.obj (.cons "password" (.str "secret123") .nil)) else none)
      (fun _ => "E") ["password"] "bad").1 rfl,
   (audit_redaction
      (fun s => if s = "D0"
        then some (Json.obj (.cons "password" (.str "secret123") .nil)) else none)
      (fun _ => "E") ["password"] "D0").2
     (Json.obj (.cons "password" (.str "secret123") .nil)) (by simp) rfl
     (by intro n h1 h2; simp only [List.length_cons, List.length_nil] at h2; omega)⟩
